import Mathlib

/-!
gopi: RPC service naming, event types and flags, service-record rendering,
the PubSub event bus and the GPIO pin look-up

A shallow embedding of `rpc.go` (package `gopi`), `util/event/pubsub.go`
(package `event`) and the pin tables of `rpi/gpio/gpio.go` (package `gpio`),
followed by the properties proved about them.

Conventions of the embedding

* Go strings are Lean strings (sequences of Unicode code points); the regular
  expression engine of Go works on the decoded runes of the string.
* `uint` values (`RPCFlag`, `Port`) are natural numbers; no arithmetic that
  could wrap is performed on them by the code modelled here.
* `time.Duration` is a signed integer (nanoseconds).
* A Go channel is a reference; references are numbered, `0` being the `nil`
  channel and `k + 1` the `k`-th channel created by `make`.
-/

/-! ## Part 1: definitions -/

/-! ### Regular expressions (the fragment of `regexp` used by `rpc.go`) -/

/-- Abstract syntax of the regular expressions needed for `reService`:
character classes given by inclusive ranges, concatenation, alternation and
Kleene star, together with the two constants required by derivatives. -/
inductive Regex where
  | empty : Regex
  | eps : Regex
  | cls : List (Char × Char) → Regex
  | seq : Regex → Regex → Regex
  | alt : Regex → Regex → Regex
  | star : Regex → Regex
  deriving Repr

/-- Membership of a rune in a character class written as inclusive ranges. -/
def inClass (rs : List (Char × Char)) (c : Char) : Bool :=
  rs.any (fun r => decide (r.1.toNat ≤ c.toNat) && decide (c.toNat ≤ r.2.toNat))

/-- Whether the expression matches the empty string. -/
def Regex.nullable : Regex → Bool
  | .empty => false
  | .eps => true
  | .cls _ => false
  | .seq a b => a.nullable && b.nullable
  | .alt a b => a.nullable || b.nullable
  | .star _ => true

/-- Brzozowski derivative of an expression by one rune. -/
def Regex.deriv : Regex → Char → Regex
  | .empty, _ => .empty
  | .eps, _ => .empty
  | .cls rs, c => if inClass rs c then .eps else .empty
  | .seq a b, c =>
      if a.nullable then .alt (.seq (a.deriv c) b) (b.deriv c) else .seq (a.deriv c) b
  | .alt a b, c => .alt (a.deriv c) (b.deriv c)
  | .star a, c => .seq (a.deriv c) (.star a)

/-- Whether some prefix of the input (the empty one included) is matched. -/
def Regex.matchesHere : Regex → List Char → Bool
  | r, [] => r.nullable
  | r, c :: cs => r.nullable || (r.deriv c).matchesHere cs

/-- Whether the whole input is matched (an anchored match). -/
def Regex.matchesAll : Regex → List Char → Bool
  | r, [] => r.nullable
  | r, c :: cs => (r.deriv c).matchesAll cs

/-- Unanchored search over a rune sequence: a match may start at any position. -/
def Regex.search : Regex → List Char → Bool
  | r, [] => r.matchesHere []
  | r, c :: cs => r.matchesHere (c :: cs) || r.search cs

/-- Go's `(*Regexp).MatchString`: reports whether the string contains any
match of the regular expression. -/
def Regex.MatchString (re : Regex) (s : String) : Bool :=
  re.search s.data

/-! ### `rpc.go`: flags, errors, `reService`, `RPCServiceType` -/

/-- Go type `RPCFlag` (`uint`). -/
abbrev RPCFlag := Nat

/-- Constant `RPC_FLAG_NONE`. -/
def RPC_FLAG_NONE : RPCFlag := 0

/-- Constant `RPC_FLAG_INET_UDP = (1 << iota)` on the second line of its block (`iota = 1`). -/
def RPC_FLAG_INET_UDP : RPCFlag := 1 <<< 1

/-- Constant `RPC_FLAG_INET_V4 = (1 << iota)` with `iota = 2`. -/
def RPC_FLAG_INET_V4 : RPCFlag := 1 <<< 2

/-- Constant `RPC_FLAG_INET_V6 = (1 << iota)` with `iota = 3`. -/
def RPC_FLAG_INET_V6 : RPCFlag := 1 <<< 3

/-- Modelled from the spec: the error values of package `gopi` are declared in a
file that is not part of the sources at hand; `RPCServiceType` only ever returns
`ErrBadParameter` (the spec's `InvalidServiceName` / `BadParameter`). -/
inductive GopiError where
  | ErrBadParameter : GopiError
  deriving DecidableEq, Repr

/-- Pattern `"[A-za-z][A-Za-z0-9\\-]*"` compiled: the first class holds the two
ranges `A-z` and `a-z`, the starred class the ranges `A-Z`, `a-z`, `0-9` and the
literal `-`. -/
def reService : Regex :=
  .seq (.cls [('A', 'z'), ('a', 'z')])
       (.star (.cls [('A', 'Z'), ('a', 'z'), ('0', '9'), ('-', '-')]))

/-- Function `RPCServiceType(service_type, flags)`: the pair of the returned
string and the returned error (`none` is the `nil` error). -/
def RPCServiceType (service_type : String) (flags : RPCFlag) : String × Option GopiError :=
  if reService.MatchString service_type == false then
    ("", some GopiError.ErrBadParameter)
  else if flags &&& RPC_FLAG_INET_UDP ≠ 0 then
    ("_" ++ service_type ++ "._udp", none)
  else
    ("_" ++ service_type ++ "._tcp", none)

/-- The name grammar of the specification, `^[A-Za-z][A-Za-z0-9-]*$`, as an
anchored match of the corresponding expression. -/
def nameGrammar : Regex :=
  .seq (.cls [('A', 'Z'), ('a', 'z')])
       (.star (.cls [('A', 'Z'), ('a', 'z'), ('0', '9'), ('-', '-')]))

/-- A name satisfies the specification's grammar. -/
def matchesNameGrammar (name : String) : Bool :=
  nameGrammar.matchesAll name.data

/-! ### `rpc.go`: `RPCServiceRecord` and its `String` method -/

/-- Go strings, under a name that stays available next to the method `String`. -/
abbrev GoString := String

/-- Go type `net.IP`, a byte slice. -/
abbrev IP := List Nat

/-- Go type `RPCServiceRecord`. The field `Type` is written `Type_`, `Type` being
reserved; `Port` is a `uint`, `TTL` a `time.Duration` (signed nanoseconds). -/
structure RPCServiceRecord where
  Name : GoString
  Type_ : GoString
  Port : Nat
  Text : List GoString
  Host : GoString
  IP4 : List IP
  IP6 : List IP
  TTL : Int

/-- The two `String()` methods of the Go standard library that `%v` calls while
rendering a record: `net.IP.String` and `time.Duration.String`. They are
parameters of the embedding. -/
structure Stringers where
  ip : IP → GoString
  duration : Int → GoString

/-- Verb `%v` applied to a `[]string`: the elements separated by spaces, in brackets. -/
def fmtStrings (xs : List GoString) : GoString :=
  "[" ++ " ".intercalate xs ++ "]"

/-- Verb `%v` applied to a `[]net.IP`: each address through its `String()` method. -/
def fmtIPs (lib : Stringers) (xs : List IP) : GoString :=
  "[" ++ " ".intercalate (xs.map lib.ip) ++ "]"

/-- Verb `%v` applied to a `uint`: decimal digits. -/
def fmtUint (n : Nat) : GoString :=
  toString n

/-- The slice `p` that `(*RPCServiceRecord).String` builds, one `append` per
populated field. -/
def RPCServiceRecord.items (lib : Stringers) (s : RPCServiceRecord) : List GoString :=
  let p : List GoString := []
  let p := if s.Name ≠ "" then p ++ ["name=\"" ++ s.Name ++ "\""] else p
  let p := if s.Type_ ≠ "" then p ++ ["type=" ++ s.Type_] else p
  let p := if s.Port > 0 then p ++ ["port=" ++ fmtUint s.Port] else p
  let p := if s.Host ≠ "" then p ++ ["host=" ++ s.Host] else p
  let p := if s.IP4.length > 0 then p ++ ["ip4=" ++ fmtIPs lib s.IP4] else p
  let p := if s.IP6.length > 0 then p ++ ["ip6=" ++ fmtIPs lib s.IP6] else p
  let p := if s.TTL > 0 then p ++ ["ttl=" ++ lib.duration s.TTL] else p
  let p := if s.Text.length > 0 then p ++ ["txt=" ++ fmtStrings s.Text] else p
  p

/-- Method `(*RPCServiceRecord).String`. -/
def RPCServiceRecord.String (lib : Stringers) (s : RPCServiceRecord) : GoString :=
  "<gopi.RPCServiceRecord>\x7b " ++ " ".intercalate (s.items lib) ++ " \x7d"

/-- The key of a rendered item: the text before its first `=`. -/
def itemKey (item : GoString) : GoString :=
  ⟨item.data.takeWhile (fun c => c != '=')⟩

/-- The eight items of a record in the order of the specification, every field
rendered whether populated or not: the name value in double quotes, the other
values as `%v` prints them. -/
def RPCServiceRecord.allItems (lib : Stringers) (s : RPCServiceRecord) : List GoString :=
  [ "name=\"" ++ s.Name ++ "\"",
    "type=" ++ s.Type_,
    "port=" ++ fmtUint s.Port,
    "host=" ++ s.Host,
    "ip4=" ++ fmtIPs lib s.IP4,
    "ip6=" ++ fmtIPs lib s.IP6,
    "ttl=" ++ lib.duration s.TTL,
    "txt=" ++ fmtStrings s.Text ]

/-! ### `util/event/pubsub.go`: channels -/

namespace event

/-- Values of the interface type `gopi.Event`; the bus only passes them on. -/
abbrev Event := Nat

/-- A channel reference of type `chan gopi.Event`: `0` is the `nil` channel,
`k + 1` the `k`-th channel created by `make`. -/
abbrev Chan := Nat

/-- What the bus does to channels, in the order it does it. -/
inductive Effect where
  | send (c : Chan) (evt : Event)
  | close (c : Chan)
  deriving DecidableEq, Repr

/-- Run-time failures of the channel operations and of `make`. -/
inductive Fault where
  | closeOfNilChannel
  | closeOfClosedChannel
  | sendOnClosedChannel
  | sendOnNilChannel
  | makesliceCapOutOfRange
  deriving DecidableEq, Repr

deriving instance DecidableEq for Except

/-- The channels in existence: how many `make` has created, and the sends and
closes performed on them so far, oldest first. A send is recorded when it
completes, that is when a receiver has taken the value. -/
structure Heap where
  nchan : Nat
  trace : List Effect
  deriving DecidableEq, Repr

/-- Whether `close` has already run on a channel. -/
def Heap.isClosed (h : Heap) (c : Chan) : Bool :=
  decide (Effect.close c ∈ h.trace)

/-- Built-in `make(chan gopi.Event)`: a channel distinct from all existing ones. -/
def Heap.make (h : Heap) : Chan × Heap :=
  (h.nchan + 1, { h with nchan := h.nchan + 1 })

/-- Built-in `close(c)`: panics on the nil channel and on a closed channel. -/
def Heap.close (h : Heap) (c : Chan) : Except Fault Heap :=
  if c = 0 then .error .closeOfNilChannel
  else if h.isClosed c then .error .closeOfClosedChannel
  else .ok { h with trace := h.trace ++ [.close c] }

/-- Statement `c <- evt`: never completes on the nil channel, panics on a closed
channel. -/
def Heap.send (h : Heap) (c : Chan) (evt : Event) : Except Fault Heap :=
  if c = 0 then .error .sendOnNilChannel
  else if h.isClosed c then .error .sendOnClosedChannel
  else .ok { h with trace := h.trace ++ [.send c evt] }

/-! ### `util/event/pubsub.go`: `PubSub` -/

/-- Go type `PubSub`. The slice `subscribers` is `none` when it is the `nil`
slice and `some l` when it is a non-nil slice with elements `l`. -/
structure PubSub where
  subscribers : Option (List Chan)
  deriving DecidableEq, Repr

/-- Function `NewPubSub(capacity)`: `make([]chan gopi.Event, 0, capacity)` panics
for a negative capacity and otherwise yields a non-nil empty slice. Limits of
the allocator are not modelled. -/
def NewPubSub (capacity : Int) : Except Fault PubSub :=
  if capacity < 0 then .error .makesliceCapOutOfRange
  else .ok { subscribers := some [] }

/-- The zero value of Go type `PubSub`, as `new(PubSub)`, `&PubSub{}` or
`var p PubSub` yield it without going through `NewPubSub`: the slice
`subscribers` is nil. -/
def zeroPubSub : PubSub :=
  { subscribers := none }

/-- The loop of `Close` over the elements of `this.subscribers`. -/
def closeLoop : List Chan → Heap → Except Fault Heap
  | [], h => .ok h
  | subscriber :: rest, h =>
    if subscriber ≠ 0 then
      match h.close subscriber with
      | .error f => .error f
      | .ok h1 => closeLoop rest h1
    else closeLoop rest h

/-- Method `(*PubSub).Close`. -/
def PubSub.Close (this : PubSub) (h : Heap) : Except Fault (PubSub × Heap) :=
  match closeLoop (this.subscribers.getD []) h with
  | .error f => .error f
  | .ok h1 => .ok ({ subscribers := none }, h1)

/-- Method `(*PubSub).Subscribe`: the returned handle, the bus and the heap. -/
def PubSub.Subscribe (this : PubSub) (h : Heap) : Chan × PubSub × Heap :=
  match this.subscribers with
  | none => (0, this, h)
  | some l =>
    let (subscriber, h1) := h.make
    (subscriber, { subscribers := some (l ++ [subscriber]) }, h1)

/-- The loop of `Unsubscribe` over the indices of `this.subscribers`: the
elements after the pass, and the heap. -/
def unsubscribeLoop (subscriber : Chan) : List Chan → Heap → Except Fault (List Chan × Heap)
  | [], h => .ok ([], h)
  | x :: rest, h =>
    if x = subscriber then
      match h.close x with
      | .error f => .error f
      | .ok h1 =>
        match unsubscribeLoop subscriber rest h1 with
        | .error f => .error f
        | .ok (rest1, h2) => .ok (0 :: rest1, h2)
    else
      match unsubscribeLoop subscriber rest h with
      | .error f => .error f
      | .ok (rest1, h2) => .ok (x :: rest1, h2)

/-- Method `(*PubSub).Unsubscribe`. -/
def PubSub.Unsubscribe (this : PubSub) (subscriber : Chan) (h : Heap) :
    Except Fault (PubSub × Heap) :=
  match this.subscribers with
  | none => .ok (this, h)
  | some l =>
    match unsubscribeLoop subscriber l h with
    | .error f => .error f
    | .ok (l1, h1) => .ok ({ subscribers := some l1 }, h1)

/-- The loop of `Emit` over the elements of `this.subscribers`. -/
def emitLoop (evt : Event) : List Chan → Heap → Except Fault Heap
  | [], h => .ok h
  | subscriber :: rest, h =>
    if subscriber ≠ 0 then
      match h.send subscriber evt with
      | .error f => .error f
      | .ok h1 => emitLoop evt rest h1
    else emitLoop evt rest h

/-- Method `(*PubSub).Emit`. -/
def PubSub.Emit (this : PubSub) (evt : Event) (h : Heap) : Except Fault Heap :=
  emitLoop evt (this.subscribers.getD []) h

/-! ### Sequences of calls and observations on the trace -/

/-- The live subscribers of a bus: the non-nil elements of `subscribers`, in order. -/
def PubSub.live (this : PubSub) : List Chan :=
  (this.subscribers.getD []).filter (fun c => c ≠ 0)

/-- Calls `Emit` once per event, in order. -/
def emitAll (this : PubSub) : List Event → Heap → Except Fault Heap
  | [], h => .ok h
  | evt :: rest, h =>
    match this.Emit evt h with
    | .error f => .error f
    | .ok h1 => emitAll this rest h1

/-- The events sent on a channel by a stretch of trace, in order. -/
def sentTo (c : Chan) : List Effect → List Event
  | [] => []
  | .send c1 evt :: rest => if c1 = c then evt :: sentTo c rest else sentTo c rest
  | .close _ :: rest => sentTo c rest

/-- How many times a stretch of trace closes a channel. -/
def closesOf (c : Chan) (tr : List Effect) : Nat :=
  tr.count (.close c)

/-- A call of one of the four methods of a bus. -/
inductive Op where
  | subscribe
  | unsubscribe (subscriber : Chan)
  | emit (evt : Event)
  | close
  deriving DecidableEq, Repr

/-- One call on a bus: the bus and heap afterwards, and the handle returned when
the call is `Subscribe`. -/
def step (op : Op) (this : PubSub) (h : Heap) : Except Fault (PubSub × Heap × Option Chan) :=
  match op with
  | .subscribe =>
    let (c, this1, h1) := this.Subscribe h
    .ok (this1, h1, some c)
  | .unsubscribe subscriber =>
    match this.Unsubscribe subscriber h with
    | .error f => .error f
    | .ok (this1, h1) => .ok (this1, h1, none)
  | .emit evt =>
    match this.Emit evt h with
    | .error f => .error f
    | .ok h1 => .ok (this, h1, none)
  | .close =>
    match this.Close h with
    | .error f => .error f
    | .ok (this1, h1) => .ok (this1, h1, none)

/-- A sequence of calls on a bus: the bus and heap at the end, and the handles
returned by the `Subscribe` calls, in order. -/
def run : List Op → PubSub → Heap → Except Fault (PubSub × Heap × List Chan)
  | [], this, h => .ok (this, h, [])
  | op :: rest, this, h =>
    match step op this h with
    | .error f => .error f
    | .ok (this1, h1, out) =>
      match run rest this1 h1 with
      | .error f => .error f
      | .ok (this2, h2, outs) => .ok (this2, h2, out.toList ++ outs)

/-- The channel an effect acts on. -/
def Effect.chan : Effect → Chan
  | .send c _ => c
  | .close c => c

/-- Every channel the trace mentions has been created by `make`. -/
def Heap.Valid (h : Heap) : Prop :=
  ∀ eff ∈ h.trace, eff.chan ≤ h.nchan

instance (h : Heap) : Decidable h.Valid := by
  unfold Heap.Valid
  infer_instance

/-- The invariant a bus keeps with the heap: no channel is subscribed twice,
every live subscriber has been created and is still open, and the heap is
valid. -/
def WellFormed (this : PubSub) (h : Heap) : Prop :=
  this.live.Nodup ∧ (∀ c ∈ this.live, c ≤ h.nchan ∧ h.isClosed c = false) ∧ h.Valid

instance (this : PubSub) (h : Heap) : Decidable (WellFormed this h) := by
  unfold WellFormed
  infer_instance

end event

/-! ### `rpc.go`: `RPCEventType` -/

/-- Go type `RPCEventType` (`uint`). -/
abbrev RPCEventType := Nat

/-- Constant `RPC_EVENT_NONE` (`iota = 0`). -/
def RPC_EVENT_NONE : RPCEventType := 0

/-- Constant `RPC_EVENT_SERVER_STARTED` (`iota = 1`). -/
def RPC_EVENT_SERVER_STARTED : RPCEventType := 1

/-- Constant `RPC_EVENT_SERVER_STOPPED` (`iota = 2`). -/
def RPC_EVENT_SERVER_STOPPED : RPCEventType := 2

/-- Constant `RPC_EVENT_SERVICE_RECORD` (`iota = 3`). -/
def RPC_EVENT_SERVICE_RECORD : RPCEventType := 3

/-- Method `(RPCEventType).String`: the `switch` over the four constants with its
`default` branch. -/
def RPCEventType.String (t : RPCEventType) : GoString :=
  if t = RPC_EVENT_NONE then "RPC_EVENT_NONE"
  else if t = RPC_EVENT_SERVER_STARTED then "RPC_EVENT_SERVER_STARTED"
  else if t = RPC_EVENT_SERVER_STOPPED then "RPC_EVENT_SERVER_STOPPED"
  else if t = RPC_EVENT_SERVICE_RECORD then "RPC_EVENT_SERVICE_RECORD"
  else "[?? Invalid RPCEventType value]"

/-- A set of transport flags built by OR-ing the chosen ones of the three flags
onto `RPC_FLAG_NONE`. -/
def flagSet (udp v4 v6 : Bool) : RPCFlag :=
  RPC_FLAG_NONE ||| (if udp then RPC_FLAG_INET_UDP else 0)
    ||| (if v4 then RPC_FLAG_INET_V4 else 0)
    ||| (if v6 then RPC_FLAG_INET_V6 else 0)

/-- The code-point range `A`..`z` (U+0041 to U+007A). -/
def inRangeAz (c : Char) : Bool :=
  decide (0x41 ≤ c.toNat) && decide (c.toNat ≤ 0x7A)

/-! ### `util/event/pubsub.go`: sequences of calls that only unsubscribe issued handles -/

namespace event

/-- Whether, along the execution of a sequence of calls, every handle passed to
`Unsubscribe` is one that an earlier `Subscribe` of the sequence returned;
`issued` holds the handles returned so far. Calls after a failing one are not
executed and so not examined. -/
def admissible : List Op → PubSub → Heap → List Chan → Bool
  | [], _, _, _ => true
  | op :: rest, this, h, issued =>
    (match op with
      | .unsubscribe subscriber => decide (subscriber ∈ issued)
      | _ => true) &&
    (match step op this h with
      | .error _ => true
      | .ok (this1, h1, out) => admissible rest this1 h1 (issued ++ out.toList))

end event

/-! ### `rpi/gpio/gpio.go`: pins -/

namespace gpio

/-- Go type `LogicalPin` (`uint`). -/
abbrev LogicalPin := Nat

/-- Go type `PhysicalPin` (`uint`). -/
abbrev PhysicalPin := Nat

/-- Go type `Pin`. -/
structure Pin where
  Name : GoString
  LogicalPin : LogicalPin
  PhysicalPin : List PhysicalPin
  deriving DecidableEq, Repr

/-- Go type `Pins`: the memory-mapped byte array (`none` when `nil`) and the
number of physical pins of the connector. -/
structure Pins where
  bytes : Option (List Nat)
  NumberOfPins : Nat
  deriving DecidableEq, Repr

/-- Modelled from the spec: the error values of package `rpi` are declared in a
file that is not part of the sources at hand; the pin look-up only ever returns
`ErrorUnknownPin`. -/
inductive RpiError where
  | ErrorUnknownPin : RpiError
  | ErrorUnknownProduct : RpiError
  deriving DecidableEq, Repr

/-- Constant `GPIO_PIN_UNKNOWN` (`iota = 0`). -/
def GPIO_PIN_UNKNOWN : LogicalPin := 0

/-- Constant `GPIO_PIN_PWR3V3` (`iota = 1`). -/
def GPIO_PIN_PWR3V3 : LogicalPin := 1

/-- Constant `GPIO_PIN_PWR5V` (`iota = 2`). -/
def GPIO_PIN_PWR5V : LogicalPin := 2

/-- Constant `GPIO_PIN_GROUND` (`iota = 3`). -/
def GPIO_PIN_GROUND : LogicalPin := 3

/-- Constant `GPIO_PIN_BCM0` (`iota = 4`). -/
def GPIO_PIN_BCM0 : LogicalPin := 4

/-- Constant `GPIO_PIN_BCM1` (`iota = 5`). -/
def GPIO_PIN_BCM1 : LogicalPin := 5

/-- Constant `GPIO_PIN_BCM2` (`iota = 6`). -/
def GPIO_PIN_BCM2 : LogicalPin := 6

/-- Constant `GPIO_PIN_BCM3` (`iota = 7`). -/
def GPIO_PIN_BCM3 : LogicalPin := 7

/-- Constant `GPIO_PIN_BCM4` (`iota = 8`). -/
def GPIO_PIN_BCM4 : LogicalPin := 8

/-- Constant `GPIO_PIN_BCM5` (`iota = 9`). -/
def GPIO_PIN_BCM5 : LogicalPin := 9

/-- Constant `GPIO_PIN_BCM6` (`iota = 10`). -/
def GPIO_PIN_BCM6 : LogicalPin := 10

/-- Constant `GPIO_PIN_BCM7` (`iota = 11`). -/
def GPIO_PIN_BCM7 : LogicalPin := 11

/-- Constant `GPIO_PIN_BCM8` (`iota = 12`). -/
def GPIO_PIN_BCM8 : LogicalPin := 12

/-- Constant `GPIO_PIN_BCM9` (`iota = 13`). -/
def GPIO_PIN_BCM9 : LogicalPin := 13

/-- Constant `GPIO_PIN_BCM10` (`iota = 14`). -/
def GPIO_PIN_BCM10 : LogicalPin := 14

/-- Constant `GPIO_PIN_BCM11` (`iota = 15`). -/
def GPIO_PIN_BCM11 : LogicalPin := 15

/-- Constant `GPIO_PIN_BCM12` (`iota = 16`). -/
def GPIO_PIN_BCM12 : LogicalPin := 16

/-- Constant `GPIO_PIN_BCM13` (`iota = 17`). -/
def GPIO_PIN_BCM13 : LogicalPin := 17

/-- Constant `GPIO_PIN_BCM14` (`iota = 18`). -/
def GPIO_PIN_BCM14 : LogicalPin := 18

/-- Constant `GPIO_PIN_BCM15` (`iota = 19`). -/
def GPIO_PIN_BCM15 : LogicalPin := 19

/-- Constant `GPIO_PIN_BCM16` (`iota = 20`). -/
def GPIO_PIN_BCM16 : LogicalPin := 20

/-- Constant `GPIO_PIN_BCM17` (`iota = 21`). -/
def GPIO_PIN_BCM17 : LogicalPin := 21

/-- Constant `GPIO_PIN_BCM18` (`iota = 22`). -/
def GPIO_PIN_BCM18 : LogicalPin := 22

/-- Constant `GPIO_PIN_BCM19` (`iota = 23`). -/
def GPIO_PIN_BCM19 : LogicalPin := 23

/-- Constant `GPIO_PIN_BCM20` (`iota = 24`). -/
def GPIO_PIN_BCM20 : LogicalPin := 24

/-- Constant `GPIO_PIN_BCM21` (`iota = 25`). -/
def GPIO_PIN_BCM21 : LogicalPin := 25

/-- Constant `GPIO_PIN_BCM22` (`iota = 26`). -/
def GPIO_PIN_BCM22 : LogicalPin := 26

/-- Constant `GPIO_PIN_BCM23` (`iota = 27`). -/
def GPIO_PIN_BCM23 : LogicalPin := 27

/-- Constant `GPIO_PIN_BCM24` (`iota = 28`). -/
def GPIO_PIN_BCM24 : LogicalPin := 28

/-- Constant `GPIO_PIN_BCM25` (`iota = 29`). -/
def GPIO_PIN_BCM25 : LogicalPin := 29

/-- Constant `GPIO_PIN_BCM26` (`iota = 30`). -/
def GPIO_PIN_BCM26 : LogicalPin := 30

/-- Constant `GPIO_PIN_BCM27` (`iota = 31`). -/
def GPIO_PIN_BCM27 : LogicalPin := 31

/-- The entries of the map literal `logicalpinmap`. -/
def logicalpinmapEntries : List (PhysicalPin × LogicalPin) :=
  [
    (1, GPIO_PIN_PWR3V3),
    (2, GPIO_PIN_PWR5V),
    (3, GPIO_PIN_BCM2),
    (4, GPIO_PIN_PWR5V),
    (5, GPIO_PIN_BCM3),
    (6, GPIO_PIN_GROUND),
    (7, GPIO_PIN_BCM4),
    (8, GPIO_PIN_BCM14),
    (9, GPIO_PIN_GROUND),
    (10, GPIO_PIN_BCM15),
    (11, GPIO_PIN_BCM17),
    (12, GPIO_PIN_BCM18),
    (13, GPIO_PIN_BCM27),
    (14, GPIO_PIN_GROUND),
    (15, GPIO_PIN_BCM22),
    (16, GPIO_PIN_BCM23),
    (17, GPIO_PIN_PWR3V3),
    (18, GPIO_PIN_BCM24),
    (19, GPIO_PIN_BCM10),
    (20, GPIO_PIN_GROUND),
    (21, GPIO_PIN_BCM9),
    (22, GPIO_PIN_BCM25),
    (23, GPIO_PIN_BCM11),
    (24, GPIO_PIN_BCM8),
    (25, GPIO_PIN_GROUND),
    (26, GPIO_PIN_BCM7),
    (27, GPIO_PIN_BCM0),
    (28, GPIO_PIN_BCM1),
    (29, GPIO_PIN_BCM5),
    (30, GPIO_PIN_GROUND),
    (31, GPIO_PIN_BCM6),
    (32, GPIO_PIN_BCM12),
    (33, GPIO_PIN_BCM13),
    (34, GPIO_PIN_GROUND),
    (35, GPIO_PIN_BCM19),
    (36, GPIO_PIN_BCM16),
    (37, GPIO_PIN_BCM26),
    (38, GPIO_PIN_BCM20),
    (39, GPIO_PIN_GROUND),
    (40, GPIO_PIN_BCM21) ]

/-- Index expression `logicalpinmap[pin]`: the zero value for an absent key. -/
def logicalpinmap (pin : PhysicalPin) : LogicalPin :=
  (logicalpinmapEntries.lookup pin).getD 0

/-- The entries of the map literal `logicalpinnamemap`. -/
def logicalpinnamemapEntries : List (LogicalPin × GoString) :=
  [
    (GPIO_PIN_UNKNOWN, "unknown"),
    (GPIO_PIN_PWR3V3, "3V3"),
    (GPIO_PIN_PWR5V, "5V"),
    (GPIO_PIN_GROUND, "GND"),
    (GPIO_PIN_BCM0, "GPIO0"),
    (GPIO_PIN_BCM1, "GPIO1"),
    (GPIO_PIN_BCM2, "GPIO2"),
    (GPIO_PIN_BCM3, "GPIO3"),
    (GPIO_PIN_BCM4, "GPIO4"),
    (GPIO_PIN_BCM5, "GPIO5"),
    (GPIO_PIN_BCM6, "GPIO6"),
    (GPIO_PIN_BCM7, "GPIO7"),
    (GPIO_PIN_BCM8, "GPIO8"),
    (GPIO_PIN_BCM9, "GPIO9"),
    (GPIO_PIN_BCM10, "GPIO10"),
    (GPIO_PIN_BCM11, "GPIO11"),
    (GPIO_PIN_BCM12, "GPIO12"),
    (GPIO_PIN_BCM13, "GPIO13"),
    (GPIO_PIN_BCM14, "GPIO14"),
    (GPIO_PIN_BCM15, "GPIO15"),
    (GPIO_PIN_BCM16, "GPIO16"),
    (GPIO_PIN_BCM17, "GPIO17"),
    (GPIO_PIN_BCM18, "GPIO18"),
    (GPIO_PIN_BCM19, "GPIO19"),
    (GPIO_PIN_BCM20, "GPIO20"),
    (GPIO_PIN_BCM21, "GPIO21"),
    (GPIO_PIN_BCM22, "GPIO22"),
    (GPIO_PIN_BCM23, "GPIO23"),
    (GPIO_PIN_BCM24, "GPIO24"),
    (GPIO_PIN_BCM25, "GPIO25"),
    (GPIO_PIN_BCM26, "GPIO26"),
    (GPIO_PIN_BCM27, "GPIO27") ]

/-- Index expression `logicalpinnamemap[pin]`: the empty string for an absent key. -/
def logicalpinnamemap (pin : LogicalPin) : GoString :=
  (logicalpinnamemapEntries.lookup pin).getD ""

/-- Method `(*Pins).getLogicalPin`: its body is a `TODO` returning `nil, nil`. -/
def Pins.getLogicalPin (_this : Pins) (_pin : LogicalPin) : Option Pin × Option RpiError :=
  (none, none)

/-- Method `(*Pins).getPhysicalPin`: the returned pin (`none` is `nil`) and the
returned error (`none` is `nil`). -/
def Pins.getPhysicalPin (this : Pins) (pin : PhysicalPin) : Option Pin × Option RpiError :=
  if pin < 1 ∨ pin > this.NumberOfPins then
    (none, some RpiError.ErrorUnknownPin)
  else
    let logicalPin := logicalpinmap pin
    if logicalPin = GPIO_PIN_UNKNOWN then
      (none, some RpiError.ErrorUnknownPin)
    else
      (some { Name := logicalpinnamemap logicalPin, LogicalPin := logicalPin,
              PhysicalPin := [pin] }, none)

/-- The dynamic type of the `interface{}` argument of `GetPin`, as far as its
type switch tells values apart. -/
inductive PinArg where
  | logical (pin : LogicalPin)
  | physical (pin : PhysicalPin)
  | other
  deriving DecidableEq, Repr

/-- Method `(*Pins).GetPin`. -/
def Pins.GetPin (this : Pins) (pin : PinArg) : Option Pin × Option RpiError :=
  match pin with
  | .logical p => this.getLogicalPin p
  | .physical p => this.getPhysicalPin p
  | .other => (none, some RpiError.ErrorUnknownPin)

end gpio

/-! ## Part 2: theorems -/

open event

/-! ### Regular expression engine -/

theorem seq_empty_matchesAll (b : Regex) (cs : List Char) :
    (Regex.seq .empty b).matchesAll cs = false := by
  induction cs with
  | nil => simp [Regex.matchesAll, Regex.nullable]
  | cons c cs ih => simpa [Regex.matchesAll, Regex.deriv, Regex.nullable] using ih

theorem nameGrammar_head (c : Char) (cs : List Char)
    (h : nameGrammar.matchesAll (c :: cs) = true) :
    inClass [('A', 'Z'), ('a', 'z')] c = true := by
  by_contra hc
  simp only [Bool.not_eq_true] at hc
  have : nameGrammar.deriv c
      = .seq .empty (.star (.cls [('A', 'Z'), ('a', 'z'), ('0', '9'), ('-', '-')])) := by
    simp [nameGrammar, Regex.deriv, Regex.nullable, hc]
  rw [Regex.matchesAll, this, seq_empty_matchesAll] at h
  exact Bool.false_ne_true h

theorem nameGrammar_nonempty (h : nameGrammar.matchesAll [] = true) : False := by
  simp [nameGrammar, Regex.matchesAll, Regex.nullable] at h

theorem letter_in_first_class (c : Char) (h : inClass [('A', 'Z'), ('a', 'z')] c = true) :
    inClass [('A', 'z'), ('a', 'z')] c = true := by
  simp only [inClass, List.any_cons, List.any_nil, Bool.or_false, Bool.or_eq_true,
    Bool.and_eq_true, decide_eq_true_eq] at h ⊢
  have hZ : ('Z' : Char).toNat = 90 := by decide
  have hz : ('z' : Char).toNat = 122 := by decide
  rw [hZ] at h
  rw [hz]
  rcases h with ⟨h1, h2⟩ | h
  · exact Or.inl ⟨h1, by omega⟩
  · exact Or.inr h

theorem reService_search_of_head (c : Char) (cs : List Char)
    (h : inClass [('A', 'z'), ('a', 'z')] c = true) :
    reService.search (c :: cs) = true := by
  have hd : reService.deriv c
      = .seq .eps (.star (.cls [('A', 'Z'), ('a', 'z'), ('0', '9'), ('-', '-')])) := by
    simp [reService, Regex.deriv, Regex.nullable, h]
  have hp : (reService.deriv c).matchesHere cs = true := by
    rw [hd]
    cases cs <;> simp [Regex.matchesHere, Regex.nullable]
  simp [Regex.search, Regex.matchesHere, hp]

theorem reService_matches_grammar_names (name : String) (h : matchesNameGrammar name = true) :
    reService.MatchString name = true := by
  unfold matchesNameGrammar at h
  unfold Regex.MatchString
  cases hd : name.data with
  | nil => rw [hd] at h; exact (nameGrammar_nonempty h).elim
  | cons c cs =>
    rw [hd] at h
    exact reService_search_of_head c cs (letter_in_first_class c (nameGrammar_head c cs h))

theorem udp_bit_test (flags : RPCFlag) :
    (flags &&& RPC_FLAG_INET_UDP ≠ 0) ↔ flags.testBit 1 = true := by
  have h2 : RPC_FLAG_INET_UDP = 2 ^ 1 := by decide
  rw [h2, Nat.and_two_pow]
  cases flags.testBit 1 <;> simp

/-! ### Rendezvous strings -/

/-- C1: for every name matching the grammar `^[A-Za-z][A-Za-z0-9-]*$` and every
flag value, `RPCServiceType` returns a nil error together with
`"_" + name + "._udp"` when the `RPC_FLAG_INET_UDP` bit (bit 1) of the flags is
set and `"_" + name + "._tcp"` when it is clear, whatever the other bits are. -/
theorem RPCServiceType_grammar_name (name : String) (flags : RPCFlag)
    (h : matchesNameGrammar name = true) :
    RPCServiceType name flags
      = (if flags.testBit 1 then ("_" ++ name ++ "._udp", none)
         else ("_" ++ name ++ "._tcp", none)) := by
  have hm := reService_matches_grammar_names name h
  unfold RPCServiceType
  rw [hm]
  by_cases hb : flags.testBit 1 = true
  · have := (udp_bit_test flags).mpr hb
    simp [hb, this]
  · have : ¬ (flags &&& RPC_FLAG_INET_UDP ≠ 0) := fun hc => hb ((udp_bit_test flags).mp hc)
    simp [hb, this]

/-- Witness for C1 at the name `"ipp"` with the UDP and IPv6 bits set. -/
theorem RPCServiceType_grammar_name_witness :
    matchesNameGrammar "ipp" = true ∧
    RPCServiceType "ipp" 10
      = (if Nat.testBit 10 1 then ("_" ++ "ipp" ++ "._udp", none)
         else ("_" ++ "ipp" ++ "._tcp", none)) :=
  ⟨by decide, RPCServiceType_grammar_name "ipp" 10 (by decide)⟩

/-- C2 (failing input): the name `"1a"` starts with a digit and so does not
match the grammar, yet `RPCServiceType "1a" RPC_FLAG_NONE` returns the
rendezvous string `"_1a._tcp"` with a nil error instead of the empty string
with `ErrBadParameter`; the same happens for names holding a space, a dot or an
underscore, while the empty name is rejected. -/
theorem RPCServiceType_accepts_non_grammar_name :
    matchesNameGrammar "1a" = false ∧
    RPCServiceType "1a" RPC_FLAG_NONE = ("_1a._tcp", none) ∧
    matchesNameGrammar "a b" = false ∧
    RPCServiceType "a b" RPC_FLAG_NONE = ("_a b._tcp", none) ∧
    matchesNameGrammar "a.b" = false ∧
    RPCServiceType "a.b" RPC_FLAG_INET_UDP = ("_a.b._udp", none) ∧
    matchesNameGrammar "_" = false ∧
    RPCServiceType "_" RPC_FLAG_NONE = ("__._tcp", none) ∧
    matchesNameGrammar "" = false ∧
    RPCServiceType "" RPC_FLAG_NONE = ("", some GopiError.ErrBadParameter) := by
  decide

/-! ### Channels and traces -/

theorem isClosed_after_send (h : Heap) (c c1 : Chan) (evt : Event) :
    Heap.isClosed { h with trace := h.trace ++ [Effect.send c1 evt] } c = h.isClosed c := by
  simp [Heap.isClosed]

theorem isClosed_after_close (h : Heap) (c c1 : Chan) :
    Heap.isClosed { h with trace := h.trace ++ [Effect.close c1] } c
      = (h.isClosed c || decide (c = c1)) := by
  simp [Heap.isClosed, Bool.decide_or]

theorem heap_trace_nil (h : Heap) : ({ h with trace := h.trace ++ [] } : Heap) = h := by
  cases h; simp

theorem sentTo_append (c : Chan) (a b : List Effect) :
    sentTo c (a ++ b) = sentTo c a ++ sentTo c b := by
  induction a with
  | nil => rfl
  | cons x xs ih =>
    cases x with
    | send c1 evt => by_cases hc : c1 = c <;> simp [sentTo, hc, ih]
    | close c1 => simp [sentTo, ih]

theorem closesOf_append (c : Chan) (a b : List Effect) :
    closesOf c (a ++ b) = closesOf c a + closesOf c b := by
  simp [closesOf, List.count_append]

theorem sentTo_sends_of_not_mem (c : Chan) (evt : Event) (l : List Chan) (hc : c ∉ l) :
    sentTo c (l.map (fun d => Effect.send d evt)) = [] := by
  induction l with
  | nil => rfl
  | cons x xs ih =>
    have hx : x ≠ c := fun e => hc (by simp [e])
    have hxs : c ∉ xs := fun e => hc (by simp [e])
    simp [sentTo, hx, ih hxs]

theorem sentTo_sends_of_mem (c : Chan) (evt : Event) (l : List Chan) (hn : l.Nodup)
    (hc : c ∈ l) : sentTo c (l.map (fun d => Effect.send d evt)) = [evt] := by
  induction l with
  | nil => simp at hc
  | cons x xs ih =>
    rw [List.nodup_cons] at hn
    by_cases hx : x = c
    · subst hx
      simp [sentTo, sentTo_sends_of_not_mem x evt xs hn.1]
    · have hxs : c ∈ xs := by
        rcases List.mem_cons.mp hc with e | e
        · exact absurd e.symm hx
        · exact e
      simp [sentTo, hx, ih hn.2 hxs]

theorem closesOf_sends (c : Chan) (evt : Event) (l : List Chan) :
    closesOf c (l.map (fun d => Effect.send d evt)) = 0 := by
  simp [closesOf, List.count_eq_zero]

theorem sentTo_closes (c : Chan) (l : List Chan) :
    sentTo c (l.map (fun d => Effect.close d)) = [] := by
  induction l with
  | nil => rfl
  | cons x xs ih => simp [sentTo, ih]

theorem closesOf_closes (c : Chan) (l : List Chan) :
    closesOf c (l.map (fun d => Effect.close d)) = l.count c := by
  induction l with
  | nil => rfl
  | cons x xs ih =>
    simp only [closesOf] at ih
    by_cases hx : x = c
    · subst hx; simp [closesOf, ih]
    · have hx1 : ¬ (Effect.close x = Effect.close c) := by simpa using hx
      simp [closesOf, List.count_cons, hx, ih]

/-! ### The loop of `Emit` -/

theorem emitLoop_shape (evt : Event) (l : List Chan) (h h1 : Heap)
    (hr : emitLoop evt l h = .ok h1) :
    h1 = { h with trace := h.trace ++ (l.filter (fun c => c ≠ 0)).map (fun c => Effect.send c evt) } := by
  induction l generalizing h with
  | nil =>
    simp only [emitLoop, Except.ok.injEq] at hr
    simp [← hr]
  | cons x xs ih =>
    by_cases hx : x = 0
    · subst hx
      simp only [emitLoop, ne_eq, not_true_eq_false, if_false] at hr
      simpa using ih h hr
    · simp only [emitLoop, ne_eq, hx, not_false_eq_true, if_true, Heap.send] at hr
      by_cases hcl : h.isClosed x = true
      · simp [hcl] at hr
      · simp only [hcl, Bool.false_eq_true, if_false] at hr
        have := ih _ hr
        simp [this, hx]

theorem emitLoop_ok (evt : Event) (l : List Chan) (h : Heap)
    (hopen : ∀ c ∈ l, c ≠ 0 → h.isClosed c = false) :
    emitLoop evt l h
      = .ok { h with trace := h.trace ++ (l.filter (fun c => c ≠ 0)).map (fun c => Effect.send c evt) } := by
  induction l generalizing h with
  | nil => simp [emitLoop]
  | cons x xs ih =>
    by_cases hx : x = 0
    · subst hx
      have := ih h (fun c hc => hopen c (List.mem_cons_of_mem _ hc))
      simpa [emitLoop] using this
    · have hxo := hopen x (List.mem_cons_self _ _) hx
      have := ih { h with trace := h.trace ++ [Effect.send x evt] }
        (fun c hc hc0 => by
          rw [isClosed_after_send]
          exact hopen c (List.mem_cons_of_mem _ hc) hc0)
      simp [emitLoop, Heap.send, hx, hxo, this]

theorem mem_live_iff (this : PubSub) (c : Chan) :
    c ∈ this.live ↔ c ∈ this.subscribers.getD [] ∧ c ≠ 0 := by
  simp [PubSub.live]

theorem Emit_ok (this : PubSub) (evt : Event) (h : Heap)
    (hopen : ∀ c ∈ this.live, h.isClosed c = false) :
    this.Emit evt h
      = .ok { h with trace := h.trace ++ this.live.map (fun c => Effect.send c evt) } := by
  unfold PubSub.Emit PubSub.live
  exact emitLoop_ok evt _ h (fun c hc hc0 => hopen c ((mem_live_iff this c).mpr ⟨hc, hc0⟩))

theorem isClosed_after_sends (h : Heap) (c : Chan) (evt : Event) (l : List Chan) :
    Heap.isClosed { h with trace := h.trace ++ l.map (fun d => Effect.send d evt) } c
      = h.isClosed c := by
  simp [Heap.isClosed]

theorem emitAll_ok (this : PubSub) (events : List Event) (h : Heap)
    (hn : this.live.Nodup) (hopen : ∀ c ∈ this.live, h.isClosed c = false) :
    ∃ new, emitAll this events h = .ok { h with trace := h.trace ++ new } ∧
      (∀ c ∈ this.live, sentTo c new = events) ∧
      (∀ c, c ∉ this.live → sentTo c new = []) ∧
      (∀ c, closesOf c new = 0) := by
  induction events generalizing h with
  | nil =>
    exact ⟨[], by simp [emitAll], fun c _ => rfl, fun c _ => rfl, fun c => rfl⟩
  | cons evt rest ih =>
    obtain ⟨new, h1, h2, h3, h4⟩ :=
      ih { h with trace := h.trace ++ this.live.map (fun c => Effect.send c evt) }
        (fun c hc => by rw [isClosed_after_sends]; exact hopen c hc)
    refine ⟨this.live.map (fun c => Effect.send c evt) ++ new, ?_, ?_, ?_, ?_⟩
    · simp [emitAll, Emit_ok this evt h hopen, h1]
    · intro c hc
      rw [sentTo_append, sentTo_sends_of_mem c evt _ hn hc, h2 c hc]
      rfl
    · intro c hc
      rw [sentTo_append, sentTo_sends_of_not_mem c evt _ hc, h3 c hc]
      rfl
    · intro c
      rw [closesOf_append, closesOf_sends, h4 c]

/-! ### The loop of `Close` -/

theorem closeLoop_shape (l : List Chan) (h h1 : Heap) (hr : closeLoop l h = .ok h1) :
    h1 = { h with trace := h.trace ++ (l.filter (fun c => c ≠ 0)).map (fun c => Effect.close c) } := by
  induction l generalizing h with
  | nil =>
    simp only [closeLoop, Except.ok.injEq] at hr
    simp [← hr]
  | cons x xs ih =>
    by_cases hx : x = 0
    · subst hx
      simp only [closeLoop, ne_eq, not_true_eq_false, if_false] at hr
      simpa using ih h hr
    · simp only [closeLoop, ne_eq, hx, not_false_eq_true, if_true, Heap.close, if_false] at hr
      by_cases hcl : h.isClosed x = true
      · simp [hcl] at hr
      · simp only [hcl, Bool.false_eq_true, if_false] at hr
        have := ih _ hr
        simp [this, hx]

theorem closeLoop_ok (l : List Chan) (h : Heap)
    (hn : (l.filter (fun c => c ≠ 0)).Nodup)
    (hopen : ∀ c ∈ l, c ≠ 0 → h.isClosed c = false) :
    closeLoop l h
      = .ok { h with trace := h.trace ++ (l.filter (fun c => c ≠ 0)).map (fun c => Effect.close c) } := by
  induction l generalizing h with
  | nil => simp [closeLoop]
  | cons x xs ih =>
    by_cases hx : x = 0
    · subst hx
      have hn1 : (xs.filter (fun c => c ≠ 0)).Nodup := by simpa using hn
      have := ih h hn1 (fun c hc => hopen c (List.mem_cons_of_mem _ hc))
      simpa [closeLoop] using this
    · have hxo := hopen x (List.mem_cons_self _ _) hx
      have hn1 : x ∉ xs.filter (fun c => c ≠ 0) ∧ (xs.filter (fun c => c ≠ 0)).Nodup := by
        simpa [List.filter_cons, hx, List.nodup_cons] using hn
      have := ih { h with trace := h.trace ++ [Effect.close x] } hn1.2
        (fun c hc hc0 => by
          rw [isClosed_after_close, hopen c (List.mem_cons_of_mem _ hc) hc0]
          have : c ≠ x := fun e => hn1.1 (by simp [← e, hc, hc0])
          simp [this])
      simp [closeLoop, Heap.close, hx, hxo, this]

/-! ### The loop of `Unsubscribe` -/

theorem unsubscribeLoop_absent (s : Chan) (l : List Chan) (h : Heap) (hs : s ∉ l) :
    unsubscribeLoop s l h = .ok (l, h) := by
  induction l with
  | nil => rfl
  | cons x xs ih =>
    have hx : x ≠ s := fun e => hs (by simp [e])
    have hxs : s ∉ xs := fun e => hs (by simp [e])
    simp [unsubscribeLoop, hx, ih hxs]

theorem unsubscribeLoop_present (s : Chan) (l : List Chan) (h : Heap) (hs0 : s ≠ 0)
    (hopen : h.isClosed s = false) (hs : s ∈ l) (hn : (l.filter (fun c => c ≠ 0)).Nodup) :
    unsubscribeLoop s l h
      = .ok (l.map (fun x => if x = s then 0 else x),
             { h with trace := h.trace ++ [Effect.close s] }) := by
  induction l with
  | nil => simp at hs
  | cons x xs ih =>
    by_cases hx : x = s
    · subst hx
      have hn1 : x ∉ xs.filter (fun c => c ≠ 0) ∧ (xs.filter (fun c => c ≠ 0)).Nodup := by
        simpa [List.filter_cons, hs0, List.nodup_cons] using hn
      have hxs : x ∉ xs := fun e => hn1.1 (by simp [e, hs0])
      have hmap : xs.map (fun y => if y = x then 0 else y) = xs := by
        have hid : ∀ y ∈ xs, (fun y => if y = x then 0 else y) y = id y := by
          intro y hy
          have : y ≠ x := fun e => hxs (e ▸ hy)
          simp [this]
        rw [List.map_congr_left hid, List.map_id]
      simp [unsubscribeLoop, Heap.close, hs0, hopen, unsubscribeLoop_absent x xs _ hxs, hmap]
    · have hxs : s ∈ xs := by
        rcases List.mem_cons.mp hs with e | e
        · exact absurd e.symm hx
        · exact e
      have hn1 : (xs.filter (fun c => c ≠ 0)).Nodup := by
        by_cases hx0 : x = 0
        · simpa [List.filter_cons, hx0] using hn
        · have : x ∉ xs.filter (fun c => c ≠ 0) ∧ (xs.filter (fun c => c ≠ 0)).Nodup := by
            simpa [List.filter_cons, hx0, List.nodup_cons] using hn
          exact this.2
      simp [unsubscribeLoop, hx, ih hxs hn1]

theorem unsubscribeLoop_shape (s : Chan) (l l1 : List Chan) (h h1 : Heap)
    (hr : unsubscribeLoop s l h = .ok (l1, h1)) :
    l1 = l.map (fun x => if x = s then 0 else x) ∧
    h1 = { h with trace := h.trace ++ (l.filter (fun x => x = s)).map (fun c => Effect.close c) } := by
  induction l generalizing h l1 h1 with
  | nil =>
    simp only [unsubscribeLoop, Except.ok.injEq, Prod.mk.injEq] at hr
    simp [← hr.1, ← hr.2]
  | cons x xs ih =>
    by_cases hx : x = s
    · subst hx
      simp only [unsubscribeLoop, if_true, Heap.close] at hr
      by_cases hx0 : x = 0
      · simp [hx0] at hr
      · by_cases hcl : h.isClosed x = true
        · simp [hx0, hcl] at hr
        · simp only [hx0, hcl, Bool.false_eq_true, if_false] at hr
          cases hrec : unsubscribeLoop x xs { h with trace := h.trace ++ [Effect.close x] } with
          | error f => simp [hrec] at hr
          | ok r =>
            obtain ⟨r1, r2⟩ := r
            simp only [hrec, Except.ok.injEq, Prod.mk.injEq] at hr
            obtain ⟨e1, e2⟩ := ih _ _ _ hrec
            simp [← hr.1, ← hr.2, e1, e2]
    · simp only [unsubscribeLoop, hx, if_false] at hr
      cases hrec : unsubscribeLoop s xs h with
      | error f => simp [hrec] at hr
      | ok r =>
        obtain ⟨r1, r2⟩ := r
        simp only [hrec, Except.ok.injEq, Prod.mk.injEq] at hr
        obtain ⟨e1, e2⟩ := ih _ _ _ hrec
        simp [← hr.1, ← hr.2, e1, e2, hx]

theorem live_after_unsubscribe (s : Chan) (l : List Chan) :
    (l.map (fun x => if x = s then 0 else x)).filter (fun c => c ≠ 0)
      = (l.filter (fun c => c ≠ 0)).filter (fun c => c ≠ s) := by
  simp only [ne_eq, decide_not]
  induction l with
  | nil => rfl
  | cons x xs ih =>
    by_cases hx : x = s
    · subst hx
      by_cases hx0 : x = 0
      · subst hx0
        simpa [List.filter_cons] using ih
      · simp [List.filter_cons, hx0, ih]
    · by_cases hx0 : x = 0
      · subst hx0
        simpa [List.filter_cons, hx] using ih
      · simp [List.filter_cons, hx, hx0, ih]

theorem unsubscribeLoop_nil_handle (l : List Chan) (h : Heap) (h0 : 0 ∈ l) :
    unsubscribeLoop 0 l h = .error Fault.closeOfNilChannel := by
  induction l with
  | nil => simp at h0
  | cons x xs ih =>
    by_cases hx : x = 0
    · simp [unsubscribeLoop, hx, Heap.close]
    · have hxs : (0 : Chan) ∈ xs := by
        rcases List.mem_cons.mp h0 with e | e
        · exact absurd e.symm hx
        · exact e
      simp [unsubscribeLoop, hx, ih hxs]

/-! ### Frame properties of single calls -/

theorem step_untouched (op : Op) (this this1 : PubSub) (h h1 : Heap) (out : Option Chan)
    (c : Chan) (hc0 : c ≠ 0) (hcl : c ∉ this.live) (hcn : c ≤ h.nchan)
    (hr : step op this h = .ok (this1, h1, out)) :
    ∃ new, h1.trace = h.trace ++ new ∧ h.nchan ≤ h1.nchan ∧
      sentTo c new = [] ∧ closesOf c new = 0 ∧ c ∉ this1.live := by
  cases op with
  | subscribe =>
    cases hs : this.subscribers with
    | none =>
      simp only [step, PubSub.Subscribe, hs, Except.ok.injEq, Prod.mk.injEq] at hr
      obtain ⟨e1, e2, -⟩ := hr
      subst e1 e2
      exact ⟨[], by simp, le_refl _, rfl, rfl, hcl⟩
    | some l =>
      simp only [step, PubSub.Subscribe, hs, Heap.make, Except.ok.injEq, Prod.mk.injEq] at hr
      obtain ⟨e1, e2, -⟩ := hr
      subst e1 e2
      refine ⟨[], by simp, by simp, rfl, rfl, ?_⟩
      simp only [PubSub.live, hs, Option.getD_some] at hcl
      simp only [PubSub.live, Option.getD_some, List.filter_append, List.mem_append, not_or]
      refine ⟨hcl, ?_⟩
      intro hmem
      have := (List.mem_filter.mp hmem).1
      simp only [List.mem_singleton] at this
      rw [this] at hcn
      exact Nat.not_succ_le_self _ hcn
  | unsubscribe s =>
    cases hs : this.subscribers with
    | none =>
      simp only [step, PubSub.Unsubscribe, hs, Except.ok.injEq, Prod.mk.injEq] at hr
      obtain ⟨e1, e2, -⟩ := hr
      subst e1 e2
      exact ⟨[], by simp, le_refl _, rfl, rfl, hcl⟩
    | some l =>
      simp only [step, PubSub.Unsubscribe, hs] at hr
      cases hrec : unsubscribeLoop s l h with
      | error f => simp [hrec] at hr
      | ok r =>
        obtain ⟨r1, r2⟩ := r
        simp only [hrec, Except.ok.injEq, Prod.mk.injEq] at hr
        obtain ⟨e1, e2, -⟩ := hr
        subst e1 e2
        obtain ⟨d1, d2⟩ := unsubscribeLoop_shape s l _ h _ hrec
        subst d1 d2
        simp only [PubSub.live, hs, Option.getD_some] at hcl
        refine ⟨_, rfl, le_refl _, sentTo_closes _ _, ?_, ?_⟩
        · rw [closesOf_closes, List.count_eq_zero]
          intro hmem
          have := List.mem_filter.mp hmem
          exact hcl (List.mem_filter.mpr ⟨this.1, by simpa using hc0⟩)
        · simp only [PubSub.live, Option.getD_some, live_after_unsubscribe]
          intro hmem
          exact hcl (List.mem_filter.mp hmem).1
  | emit evt =>
    simp only [step, PubSub.Emit] at hr
    cases hrec : emitLoop evt (this.subscribers.getD []) h with
    | error f => simp [hrec] at hr
    | ok r =>
      simp only [hrec, Except.ok.injEq, Prod.mk.injEq] at hr
      obtain ⟨e1, e2, -⟩ := hr
      subst e1 e2
      have d := emitLoop_shape evt _ h _ hrec
      subst d
      exact ⟨_, rfl, le_refl _, sentTo_sends_of_not_mem c evt _ hcl, closesOf_sends _ _ _, hcl⟩
  | close =>
    simp only [step, PubSub.Close] at hr
    cases hrec : closeLoop (this.subscribers.getD []) h with
    | error f => simp [hrec] at hr
    | ok r =>
      simp only [hrec, Except.ok.injEq, Prod.mk.injEq] at hr
      obtain ⟨e1, e2, -⟩ := hr
      subst e1 e2
      have d := closeLoop_shape _ h _ hrec
      subst d
      refine ⟨_, rfl, le_refl _, sentTo_closes _ _, ?_, by simp [PubSub.live]⟩
      rw [closesOf_closes, List.count_eq_zero]
      exact hcl

theorem run_untouched (ops : List Op) (this this2 : PubSub) (h h2 : Heap) (outs : List Chan)
    (c : Chan) (hc0 : c ≠ 0) (hcl : c ∉ this.live) (hcn : c ≤ h.nchan)
    (hr : run ops this h = .ok (this2, h2, outs)) :
    ∃ new, h2.trace = h.trace ++ new ∧ h.nchan ≤ h2.nchan ∧
      sentTo c new = [] ∧ closesOf c new = 0 ∧ c ∉ this2.live := by
  induction ops generalizing this h outs with
  | nil =>
    simp only [run, Except.ok.injEq, Prod.mk.injEq] at hr
    obtain ⟨e1, e2, -⟩ := hr
    subst e1 e2
    exact ⟨[], by simp, le_refl _, rfl, rfl, hcl⟩
  | cons op rest ih =>
    simp only [run] at hr
    cases hst : step op this h with
    | error f => simp [hst] at hr
    | ok r =>
      obtain ⟨this1, h1, out⟩ := r
      simp only [hst] at hr
      cases hrest : run rest this1 h1 with
      | error f => simp [hrest] at hr
      | ok r2 =>
        obtain ⟨this3, h3, outs3⟩ := r2
        simp only [hrest, Except.ok.injEq, Prod.mk.injEq] at hr
        obtain ⟨e1, e2, -⟩ := hr
        subst e1 e2
        obtain ⟨new1, t1, n1, s1, c1, l1⟩ := step_untouched op this this1 h h1 out c hc0 hcl hcn hst
        obtain ⟨new2, t2, n2, s2, c2, l2⟩ :=
          ih this1 h1 outs3 l1 (le_trans hcn n1) hrest
        refine ⟨new1 ++ new2, ?_, le_trans n1 n2, ?_, ?_, l2⟩
        · rw [t2, t1, List.append_assoc]
        · rw [sentTo_append, s1, s2]; rfl
        · rw [closesOf_append, c1, c2]

theorem run_closed (ops : List Op) (h : Heap) :
    run ops { subscribers := none } h
      = .ok ({ subscribers := none }, h, List.replicate (ops.count Op.subscribe) 0) := by
  induction ops with
  | nil => rfl
  | cons op rest ih =>
    cases op with
    | subscribe => simp [run, step, PubSub.Subscribe, ih, List.replicate_succ]
    | unsubscribe s => simp [run, step, PubSub.Unsubscribe, ih]
    | emit evt => simp [run, step, PubSub.Emit, emitLoop, ih]
    | close => simp [run, step, PubSub.Close, closeLoop, ih]

theorem Close_result_bus (this this1 : PubSub) (h h1 : Heap)
    (hr : this.Close h = .ok (this1, h1)) : this1 = { subscribers := none } := by
  unfold PubSub.Close at hr
  cases hrec : closeLoop (this.subscribers.getD []) h with
  | error f => simp [hrec] at hr
  | ok r =>
    simp only [hrec, Except.ok.injEq, Prod.mk.injEq] at hr
    exact hr.1.symm

theorem Unsubscribe_absent (this : PubSub) (c : Chan) (h : Heap)
    (hc : c ∉ this.subscribers.getD []) : this.Unsubscribe c h = .ok (this, h) := by
  cases hs : this.subscribers with
  | none => simp [PubSub.Unsubscribe, hs]
  | some l =>
    have hl : c ∉ l := by simpa [hs] using hc
    have : this = { subscribers := some l } := by cases this; simpa using hs
    simp [PubSub.Unsubscribe, hs, unsubscribeLoop_absent c l h hl, this]

theorem WellFormed_open (this : PubSub) (h : Heap) (hwf : WellFormed this h) :
    ∀ c ∈ this.live, h.isClosed c = false :=
  fun c hc => (hwf.2.1 c hc).2

/-! ### The invariant of the bus -/

theorem WellFormed_after_unsubscribe (l : List Chan) (h : Heap) (c : Chan)
    (hwf : WellFormed { subscribers := some l } h)
    (hcl : c ∈ l.filter (fun x => x ≠ 0)) :
    WellFormed { subscribers := some (l.map (fun x => if x = c then 0 else x)) }
      { h with trace := h.trace ++ [Effect.close c] } := by
  obtain ⟨hn, hb, hv⟩ := hwf
  simp only [PubSub.live, Option.getD_some] at hn hb
  refine ⟨?_, ?_, ?_⟩
  · simp only [PubSub.live, Option.getD_some, live_after_unsubscribe]
    exact hn.filter _
  · intro d hd
    simp only [PubSub.live, Option.getD_some, live_after_unsubscribe] at hd
    obtain ⟨hd1, hd2⟩ := List.mem_filter.mp hd
    have hdc : d ≠ c := by simpa using hd2
    refine ⟨(hb d hd1).1, ?_⟩
    rw [isClosed_after_close, (hb d hd1).2]
    simp [hdc]
  · intro eff heff
    rcases List.mem_append.mp heff with he | he
    · exact hv eff he
    · rw [List.mem_singleton] at he
      subst he
      exact (hb c hcl).1

theorem WellFormed_after_subscribe (l : List Chan) (h : Heap)
    (hwf : WellFormed { subscribers := some l } h) :
    h.nchan + 1 ∉ l ∧
    PubSub.live { subscribers := some (l ++ [h.nchan + 1]) }
      = PubSub.live { subscribers := some l } ++ [h.nchan + 1] ∧
    WellFormed { subscribers := some (l ++ [h.nchan + 1]) } { h with nchan := h.nchan + 1 } := by
  have hbound : ∀ d ∈ l, d ≤ h.nchan := by
    intro d hd
    by_cases hd0 : d = 0
    · rw [hd0]; exact Nat.zero_le _
    · exact (hwf.2.1 d ((mem_live_iff _ d).mpr ⟨by simpa using hd, hd0⟩)).1
  have hfresh : h.nchan + 1 ∉ l := fun hm => Nat.not_succ_le_self _ (hbound _ hm)
  have hlive : PubSub.live { subscribers := some (l ++ [h.nchan + 1]) }
      = PubSub.live { subscribers := some l } ++ [h.nchan + 1] := by
    simp [PubSub.live, List.filter_append]
  refine ⟨hfresh, hlive, ?_, ?_, ?_⟩
  · rw [hlive]
    refine List.Nodup.append hwf.1 (List.nodup_singleton _) ?_
    intro d hd1 hd2
    rw [List.mem_singleton] at hd2
    subst hd2
    exact hfresh ((mem_live_iff _ _).mp hd1).1
  · intro d hd
    rw [hlive] at hd
    rcases List.mem_append.mp hd with hd | hd
    · exact ⟨Nat.le_succ_of_le (hwf.2.1 d hd).1, (hwf.2.1 d hd).2⟩
    · rw [List.mem_singleton] at hd
      subst hd
      refine ⟨le_refl _, ?_⟩
      by_contra hcl
      simp only [Bool.not_eq_false, Heap.isClosed, decide_eq_true_eq] at hcl
      exact Nat.not_succ_le_self _ (hwf.2.2 _ hcl)
  · intro eff heff
    exact Nat.le_succ_of_le (hwf.2.2 eff heff)

theorem WellFormed_after_emit (this : PubSub) (h : Heap) (evt : Event)
    (hwf : WellFormed this h) :
    WellFormed this { h with trace := h.trace ++ this.live.map (fun c => Effect.send c evt) } := by
  refine ⟨hwf.1, ?_, ?_⟩
  · intro d hd
    refine ⟨(hwf.2.1 d hd).1, ?_⟩
    rw [isClosed_after_sends]
    exact (hwf.2.1 d hd).2
  · intro eff heff
    rcases List.mem_append.mp heff with he | he
    · exact hwf.2.2 eff he
    · obtain ⟨d, hd, rfl⟩ := List.mem_map.mp he
      exact (hwf.2.1 d hd).1

theorem WellFormed_after_close (this : PubSub) (h : Heap) (hwf : WellFormed this h) :
    WellFormed { subscribers := none }
      { h with trace := h.trace ++ this.live.map (fun c => Effect.close c) } := by
  refine ⟨by simp [PubSub.live], by simp [PubSub.live], ?_⟩
  intro eff heff
  rcases List.mem_append.mp heff with he | he
  · exact hwf.2.2 eff he
  · obtain ⟨d, hd, rfl⟩ := List.mem_map.mp he
    exact (hwf.2.1 d hd).1

theorem step_preserves_WellFormed (op : Op) (this this1 : PubSub) (h h1 : Heap)
    (out : Option Chan) (hwf : WellFormed this h)
    (hr : step op this h = .ok (this1, h1, out)) : WellFormed this1 h1 := by
  cases op with
  | subscribe =>
    cases hs : this.subscribers with
    | none =>
      simp only [step, PubSub.Subscribe, hs, Except.ok.injEq, Prod.mk.injEq] at hr
      obtain ⟨e1, e2, -⟩ := hr
      subst e1 e2
      exact hwf
    | some l =>
      have hthis : this = { subscribers := some l } := by cases this; simpa using hs
      subst hthis
      simp only [step, PubSub.Subscribe, Heap.make, Except.ok.injEq, Prod.mk.injEq] at hr
      obtain ⟨e1, e2, -⟩ := hr
      subst e1 e2
      exact (WellFormed_after_subscribe l h hwf).2.2
  | unsubscribe s =>
    cases hs : this.subscribers with
    | none =>
      simp only [step, PubSub.Unsubscribe, hs, Except.ok.injEq, Prod.mk.injEq] at hr
      obtain ⟨e1, e2, -⟩ := hr
      subst e1 e2
      exact hwf
    | some l =>
      have hthis : this = { subscribers := some l } := by cases this; simpa using hs
      subst hthis
      by_cases hmem : s ∈ l
      · by_cases hs0 : s = 0
        · subst hs0
          simp [step, PubSub.Unsubscribe, unsubscribeLoop_nil_handle l h hmem] at hr
        · have hlv : s ∈ PubSub.live { subscribers := some l } :=
            (mem_live_iff _ s).mpr ⟨by simpa using hmem, hs0⟩
          have hn : (l.filter (fun x => x ≠ 0)).Nodup := by
            simpa [PubSub.live] using hwf.1
          simp only [step, PubSub.Unsubscribe,
            unsubscribeLoop_present s l h hs0 (hwf.2.1 s hlv).2 hmem hn, Except.ok.injEq,
            Prod.mk.injEq] at hr
          obtain ⟨e1, e2, -⟩ := hr
          subst e1 e2
          exact WellFormed_after_unsubscribe l h s hwf hlv
      · simp only [step, PubSub.Unsubscribe, unsubscribeLoop_absent s l h hmem, Except.ok.injEq,
          Prod.mk.injEq] at hr
        obtain ⟨e1, e2, -⟩ := hr
        subst e1 e2
        exact hwf
  | emit evt =>
    simp only [step, Emit_ok this evt h (WellFormed_open this h hwf), Except.ok.injEq,
      Prod.mk.injEq] at hr
    obtain ⟨e1, e2, -⟩ := hr
    subst e1 e2
    exact WellFormed_after_emit this h evt hwf
  | close =>
    have hopen : ∀ c ∈ this.subscribers.getD [], c ≠ 0 → h.isClosed c = false :=
      fun c hc hc0 => (hwf.2.1 c ((mem_live_iff this c).mpr ⟨hc, hc0⟩)).2
    simp only [step, PubSub.Close, closeLoop_ok (this.subscribers.getD []) h hwf.1 hopen,
      Except.ok.injEq, Prod.mk.injEq] at hr
    obtain ⟨e1, e2, -⟩ := hr
    subst e1 e2
    exact WellFormed_after_close this h hwf

theorem run_preserves_WellFormed (ops : List Op) (this this2 : PubSub) (h h2 : Heap)
    (outs : List Chan) (hwf : WellFormed this h)
    (hr : run ops this h = .ok (this2, h2, outs)) : WellFormed this2 h2 := by
  induction ops generalizing this h outs with
  | nil =>
    simp only [run, Except.ok.injEq, Prod.mk.injEq] at hr
    obtain ⟨e1, e2, -⟩ := hr
    subst e1 e2
    exact hwf
  | cons op rest ih =>
    simp only [run] at hr
    cases hst : step op this h with
    | error f => simp [hst] at hr
    | ok r =>
      obtain ⟨this1, h1, out⟩ := r
      simp only [hst] at hr
      cases hrest : run rest this1 h1 with
      | error f => simp [hrest] at hr
      | ok r2 =>
        obtain ⟨this3, h3, outs3⟩ := r2
        simp only [hrest, Except.ok.injEq, Prod.mk.injEq] at hr
        obtain ⟨e1, e2, -⟩ := hr
        subst e1 e2
        exact ih this1 h1 outs3 (step_preserves_WellFormed op this this1 h h1 out hwf hst) hrest

theorem step_keeps_open (op : Op) (this this1 : PubSub) (h h1 : Heap) (out : Option Chan)
    (hop : op ≠ Op.close) (hs : this.subscribers ≠ none)
    (hr : step op this h = .ok (this1, h1, out)) : this1.subscribers ≠ none := by
  cases hl : this.subscribers with
  | none => exact absurd hl hs
  | some l =>
    cases op with
    | subscribe =>
      simp only [step, PubSub.Subscribe, hl, Heap.make, Except.ok.injEq, Prod.mk.injEq] at hr
      simp [← hr.1]
    | unsubscribe s =>
      simp only [step, PubSub.Unsubscribe, hl] at hr
      cases hrec : unsubscribeLoop s l h with
      | error f => simp [hrec] at hr
      | ok r =>
        obtain ⟨r1, r2⟩ := r
        simp only [hrec, Except.ok.injEq, Prod.mk.injEq] at hr
        simp [← hr.1]
    | emit evt =>
      simp only [step] at hr
      cases hrec : this.Emit evt h with
      | error f => simp [hrec] at hr
      | ok r =>
        simp only [hrec, Except.ok.injEq, Prod.mk.injEq] at hr
        rw [← hr.1, hl]
        simp
    | close => exact absurd rfl hop

theorem run_keeps_open (ops : List Op) (this this2 : PubSub) (h h2 : Heap) (outs : List Chan)
    (hops : Op.close ∉ ops) (hs : this.subscribers ≠ none)
    (hr : run ops this h = .ok (this2, h2, outs)) : this2.subscribers ≠ none := by
  induction ops generalizing this h outs with
  | nil =>
    simp only [run, Except.ok.injEq, Prod.mk.injEq] at hr
    rw [← hr.1]
    exact hs
  | cons op rest ih =>
    simp only [run] at hr
    cases hst : step op this h with
    | error f => simp [hst] at hr
    | ok r =>
      obtain ⟨this1, h1, out⟩ := r
      simp only [hst] at hr
      cases hrest : run rest this1 h1 with
      | error f => simp [hrest] at hr
      | ok r2 =>
        obtain ⟨this3, h3, outs3⟩ := r2
        simp only [hrest, Except.ok.injEq, Prod.mk.injEq] at hr
        obtain ⟨e1, e2, -⟩ := hr
        subst e1 e2
        have hop : op ≠ Op.close := fun e => hops (by simp [e])
        have hrest1 : Op.close ∉ rest := fun e => hops (by simp [e])
        exact ih this1 h1 outs3 hrest1 (step_keeps_open op this this1 h h1 out hop hs hst) hrest

/-! ### The event bus -/

/-- C3: on a bus in its invariant, emitting the events `e1..ek` in that order with
no other call in between completes, appends a stretch of trace in which every
live subscriber is sent exactly `e1..ek` in emission order, nothing is sent on a
channel that is not a live subscriber, and no channel is closed. -/
theorem Emit_delivers_each_event_in_order (this : PubSub) (h : Heap) (events : List Event)
    (hwf : WellFormed this h) :
    ∃ new, emitAll this events h = .ok { h with trace := h.trace ++ new } ∧
      (∀ c ∈ this.live, sentTo c new = events) ∧
      (∀ c, c ∉ this.live → sentTo c new = []) ∧
      (∀ c, closesOf c new = 0) :=
  emitAll_ok this events h hwf.1 (WellFormed_open this h hwf)

/-- Witness for C3: two live subscribers and one removed one, three events. -/
theorem Emit_delivers_each_event_in_order_witness :
    WellFormed { subscribers := some [1, 0, 3] } { nchan := 3, trace := [Effect.close 2] } ∧
    ∃ new, emitAll { subscribers := some [1, 0, 3] } [7, 8, 7]
          { nchan := 3, trace := [Effect.close 2] }
        = .ok { nchan := 3, trace := [Effect.close 2] ++ new } ∧
      (∀ c ∈ PubSub.live { subscribers := some [1, 0, 3] }, sentTo c new = [7, 8, 7]) ∧
      (∀ c, c ∉ PubSub.live { subscribers := some [1, 0, 3] } → sentTo c new = []) ∧
      (∀ c, closesOf c new = 0) :=
  ⟨by decide,
   Emit_delivers_each_event_in_order { subscribers := some [1, 0, 3] }
     { nchan := 3, trace := [Effect.close 2] } [7, 8, 7] (by decide)⟩

/-- C4: on a bus in its invariant, `Unsubscribe(c)` of a live subscriber `c`
completes and closes `c` exactly once (the trace grows by the single effect
`close c`); the live subscribers afterwards are the former ones without `c`, in
the same order; every later run of `Emit` calls sends nothing on `c` and sends
each other former live subscriber every event in order; and whatever calls
follow on the bus, nothing is ever sent on `c` again, `c` is not closed again and
`c` never becomes a live subscriber again. -/
theorem Unsubscribe_live_stops_delivery (this : PubSub) (h : Heap) (c : Chan)
    (hwf : WellFormed this h) (hc : c ∈ this.live) :
    ∃ this1, this.Unsubscribe c h
        = .ok (this1, { h with trace := h.trace ++ [Effect.close c] }) ∧
      this1.live = this.live.filter (fun d => d ≠ c) ∧
      (∀ d ∈ this.live, d ≠ c → d ∈ this1.live) ∧
      (∀ events, ∃ new,
        emitAll this1 events { h with trace := h.trace ++ [Effect.close c] }
          = .ok { h with trace := h.trace ++ [Effect.close c] ++ new } ∧
        sentTo c new = [] ∧ ∀ d ∈ this.live, d ≠ c → sentTo d new = events) ∧
      (∀ ops this2 h2 outs,
        run ops this1 { h with trace := h.trace ++ [Effect.close c] } = .ok (this2, h2, outs) →
        ∃ new, h2.trace = h.trace ++ [Effect.close c] ++ new ∧
          sentTo c new = [] ∧ closesOf c new = 0 ∧ c ∉ this2.live) := by
  obtain ⟨hcl, hc0⟩ := (mem_live_iff this c).mp hc
  cases hs : this.subscribers with
  | none => simp [hs] at hcl
  | some l =>
    have hthis : this = { subscribers := some l } := by cases this; simpa using hs
    subst hthis
    simp only [Option.getD_some] at hcl
    have hwf1 := WellFormed_after_unsubscribe l h c hwf hc
    have hlive : PubSub.live { subscribers := some (l.map (fun x => if x = c then 0 else x)) }
        = (PubSub.live { subscribers := some l }).filter (fun d => d ≠ c) := by
      simp only [PubSub.live, Option.getD_some, live_after_unsubscribe]
    have hkeep : ∀ d ∈ PubSub.live { subscribers := some l }, d ≠ c →
        d ∈ PubSub.live { subscribers := some (l.map (fun x => if x = c then 0 else x)) } := by
      intro d hd hdc
      rw [hlive]
      exact List.mem_filter.mpr ⟨hd, by simpa using hdc⟩
    have hgone : c ∉ PubSub.live { subscribers := some (l.map (fun x => if x = c then 0 else x)) } := by
      rw [hlive]
      intro hmem
      have := (List.mem_filter.mp hmem).2
      simp at this
    refine ⟨{ subscribers := some (l.map (fun x => if x = c then 0 else x)) }, ?_, hlive, hkeep, ?_, ?_⟩
    · have hn : (l.filter (fun x => x ≠ 0)).Nodup := by
        simpa [PubSub.live] using hwf.1
      simp [PubSub.Unsubscribe,
        unsubscribeLoop_present c l h hc0 (hwf.2.1 c hc).2 hcl hn]
    · intro events
      obtain ⟨new, e1, e2, e3, -⟩ := emitAll_ok _ events _ hwf1.1 (WellFormed_open _ _ hwf1)
      exact ⟨new, by simpa using e1, e3 c hgone, fun d hd hdc => e2 d (hkeep d hd hdc)⟩
    · intro ops this2 h2 outs hr
      obtain ⟨new, t, -, s, k, g⟩ :=
        run_untouched ops _ this2 { h with trace := h.trace ++ [Effect.close c] } h2 outs c
          hc0 hgone (hwf.2.1 c hc).1 hr
      exact ⟨new, t, s, k, g⟩

/-- Witness for C4: the second of three subscribers is unsubscribed. -/
theorem Unsubscribe_live_stops_delivery_witness :
    WellFormed { subscribers := some [1, 2, 3] } { nchan := 3, trace := [] } ∧
    (2 : Chan) ∈ PubSub.live { subscribers := some [1, 2, 3] } ∧
    ∃ this1, PubSub.Unsubscribe { subscribers := some [1, 2, 3] } 2 { nchan := 3, trace := [] }
        = .ok (this1, { nchan := 3, trace := [] ++ [Effect.close 2] }) ∧
      this1.live = (PubSub.live { subscribers := some [1, 2, 3] }).filter (fun d => d ≠ 2) ∧
      (∀ d ∈ PubSub.live { subscribers := some [1, 2, 3] }, d ≠ 2 → d ∈ this1.live) ∧
      (∀ events, ∃ new,
        emitAll this1 events { nchan := 3, trace := [] ++ [Effect.close 2] }
          = .ok { nchan := 3, trace := [] ++ [Effect.close 2] ++ new } ∧
        sentTo 2 new = [] ∧
        ∀ d ∈ PubSub.live { subscribers := some [1, 2, 3] }, d ≠ 2 → sentTo d new = events) ∧
      (∀ ops this2 h2 outs,
        run ops this1 { nchan := 3, trace := [] ++ [Effect.close 2] } = .ok (this2, h2, outs) →
        ∃ new, h2.trace = [] ++ [Effect.close 2] ++ new ∧
          sentTo 2 new = [] ∧ closesOf 2 new = 0 ∧ 2 ∉ this2.live) :=
  ⟨by decide, by decide,
   Unsubscribe_live_stops_delivery { subscribers := some [1, 2, 3] } { nchan := 3, trace := [] } 2
     (by decide) (by decide)⟩

/-- C5: on a bus in its invariant, `Close()` completes, closes every live
subscriber exactly once, closes no other channel (none of those already removed
by `Unsubscribe` in particular), sends nothing, and leaves the subscriber slice
nil, so that a later `Emit` sends nothing and changes nothing. -/
theorem Close_closes_live_and_clears (this : PubSub) (h : Heap) (hwf : WellFormed this h) :
    ∃ new, this.Close h
        = .ok ({ subscribers := none }, { h with trace := h.trace ++ new }) ∧
      (∀ c ∈ this.live, closesOf c new = 1) ∧
      (∀ c, c ∉ this.live → closesOf c new = 0) ∧
      (∀ c, sentTo c new = []) ∧
      PubSub.live { subscribers := none } = [] ∧
      (∀ evt h1, PubSub.Emit { subscribers := none } evt h1 = .ok h1) := by
  refine ⟨this.live.map (fun c => Effect.close c), ?_, ?_, ?_, ?_, rfl, ?_⟩
  · have hopen : ∀ c ∈ this.subscribers.getD [], c ≠ 0 → h.isClosed c = false :=
      fun c hc hc0 => (hwf.2.1 c ((mem_live_iff this c).mpr ⟨hc, hc0⟩)).2
    have := closeLoop_ok (this.subscribers.getD []) h hwf.1 hopen
    simp [PubSub.Close, this, PubSub.live]
  · intro c hc
    rw [closesOf_closes]
    exact List.count_eq_one_of_mem hwf.1 hc
  · intro c hc
    rw [closesOf_closes]
    exact List.count_eq_zero.mpr hc
  · intro c
    exact sentTo_closes c _
  · intro evt h1
    simp [PubSub.Emit, emitLoop]

/-- Witness for C5: a bus with two live subscribers and one removed one. -/
theorem Close_closes_live_and_clears_witness :
    WellFormed { subscribers := some [1, 0, 3] } { nchan := 3, trace := [Effect.close 2] } ∧
    ∃ new, PubSub.Close { subscribers := some [1, 0, 3] } { nchan := 3, trace := [Effect.close 2] }
        = .ok ({ subscribers := none }, { nchan := 3, trace := [Effect.close 2] ++ new }) ∧
      (∀ c ∈ PubSub.live { subscribers := some [1, 0, 3] }, closesOf c new = 1) ∧
      (∀ c, c ∉ PubSub.live { subscribers := some [1, 0, 3] } → closesOf c new = 0) ∧
      (∀ c, sentTo c new = []) ∧
      PubSub.live { subscribers := none } = [] ∧
      (∀ evt h1, PubSub.Emit { subscribers := none } evt h1 = .ok h1) :=
  ⟨by decide,
   Close_closes_live_and_clears { subscribers := some [1, 0, 3] }
     { nchan := 3, trace := [Effect.close 2] } (by decide)⟩

/-- C6: once `Close()` has completed on a bus, every sequence of later
`Subscribe`, `Unsubscribe`, `Emit` and `Close` calls completes, every `Subscribe`
among them returns the nil handle (one nil handle per `Subscribe` call), the
subscriber slice is still nil at the end, and the heap is untouched: no channel
is created, so no subscriber is ever registered again. -/
theorem Subscribe_after_Close_returns_nil (this this1 : PubSub) (h h1 : Heap) (ops : List Op)
    (hclose : this.Close h = .ok (this1, h1)) :
    this1.subscribers = none ∧
    this1.Subscribe h1 = (0, this1, h1) ∧
    run ops this1 h1
      = .ok ({ subscribers := none }, h1, List.replicate (ops.count Op.subscribe) 0) := by
  have hb := Close_result_bus this this1 h h1 hclose
  subst hb
  exact ⟨rfl, rfl, run_closed ops h1⟩

/-- Witness for C6: a bus with one live subscriber is closed, then subscribed to
twice with other calls in between. -/
theorem Subscribe_after_Close_returns_nil_witness :
    PubSub.Close { subscribers := some [1] } { nchan := 1, trace := [] }
      = .ok ({ subscribers := none }, { nchan := 1, trace := [Effect.close 1] }) ∧
    (PubSub.subscribers { subscribers := none } = none ∧
     PubSub.Subscribe { subscribers := none } { nchan := 1, trace := [Effect.close 1] }
       = (0, { subscribers := none }, { nchan := 1, trace := [Effect.close 1] }) ∧
     run [Op.subscribe, Op.emit 5, Op.unsubscribe 1, Op.close, Op.subscribe]
         { subscribers := none } { nchan := 1, trace := [Effect.close 1] }
       = .ok ({ subscribers := none }, { nchan := 1, trace := [Effect.close 1] },
           List.replicate
             ([Op.subscribe, Op.emit 5, Op.unsubscribe 1, Op.close, Op.subscribe].count
               Op.subscribe) 0)) :=
  ⟨by decide,
   Subscribe_after_Close_returns_nil { subscribers := some [1] } { subscribers := none }
     { nchan := 1, trace := [] } { nchan := 1, trace := [Effect.close 1] }
     [Op.subscribe, Op.emit 5, Op.unsubscribe 1, Op.close, Op.subscribe] (by decide)⟩

/-- C7 (counterexample): the zero value of `PubSub` on a heap where nothing has
happened yet. No call has run on this bus, `Close` in particular, and it is in
its invariant; yet `Subscribe()` takes the branch `this.subscribers == nil`,
returns the nil handle, creates no channel and registers no subscriber: the
bus has no live subscriber afterwards. -/
theorem Subscribe_on_zero_value_returns_nil :
    zeroPubSub.subscribers = none ∧
    WellFormed zeroPubSub { nchan := 0, trace := [] } ∧
    PubSub.Subscribe zeroPubSub { nchan := 0, trace := [] }
      = (0, zeroPubSub, { nchan := 0, trace := [] }) ∧
    PubSub.live (PubSub.Subscribe zeroPubSub { nchan := 0, trace := [] }).2.1 = [] := by
  decide

/-- C7 (amended): `NewPubSub(capacity)` succeeds for every `capacity >= 0` (zero
included) with a bus whose subscriber slice is non-nil, and after any completed
sequence of calls without `Close` on it the slice is still non-nil and the bus
is in its invariant; and on every bus in its invariant whose subscriber slice
is non-nil, `Subscribe()` returns a non-nil handle that is a newly created
channel, hence distinct from every element of the slice, appends it to the
slice, and so adds it after the former live subscribers, which stay live in
the same order; nothing is sent or closed, and the invariant is kept. A bus
whose slice is nil, the zero value included although it was never closed, is
outside this statement. -/
theorem Subscribe_on_open_bus (this : PubSub) (h : Heap) (l : List Chan)
    (hopen : this.subscribers = some l) (hwf : WellFormed this h) :
    (∀ capacity : Int, 0 ≤ capacity →
      ∃ bus, NewPubSub capacity = .ok bus ∧ bus.subscribers = some [] ∧
        ∀ (h0 : Heap) (ops : List Op) (this2 : PubSub) (h2 : Heap) (outs : List Chan),
          h0.Valid → Op.close ∉ ops → run ops bus h0 = .ok (this2, h2, outs) →
          this2.subscribers ≠ none ∧ WellFormed this2 h2) ∧
    ∃ c this1 h1, this.Subscribe h = (c, this1, h1) ∧
      c ≠ 0 ∧ c ∉ l ∧ h.nchan < c ∧
      this1.subscribers = some (l ++ [c]) ∧
      this1.live = this.live ++ [c] ∧
      h1.trace = h.trace ∧
      WellFormed this1 h1 := by
  have hthis : this = { subscribers := some l } := by cases this; simpa using hopen
  subst hthis
  obtain ⟨hfresh, hlive, hwf1⟩ := WellFormed_after_subscribe l h hwf
  constructor
  · intro capacity hcap
    refine ⟨{ subscribers := some [] }, ?_, rfl, ?_⟩
    · simp [NewPubSub, not_lt.mpr hcap]
    · intro h0 ops this2 h2 outs hv hops hr
      have hwf0 : WellFormed { subscribers := some [] } h0 :=
        ⟨by simp [PubSub.live], by simp [PubSub.live], hv⟩
      exact ⟨run_keeps_open ops _ this2 h0 h2 outs hops (by simp) hr,
        run_preserves_WellFormed ops _ this2 h0 h2 outs hwf0 hr⟩
  · refine ⟨h.nchan + 1, { subscribers := some (l ++ [h.nchan + 1]) },
      { h with nchan := h.nchan + 1 }, ?_, Nat.succ_ne_zero _, hfresh, Nat.lt_succ_self _,
      rfl, hlive, rfl, hwf1⟩
    simp [PubSub.Subscribe, Heap.make]

/-- Witness for C7 (amended): a bus holding one live and one removed subscriber. -/
theorem Subscribe_on_open_bus_witness :
    PubSub.subscribers { subscribers := some [0, 2] } = some [0, 2] ∧
    WellFormed { subscribers := some [0, 2] } { nchan := 2, trace := [Effect.close 1] } ∧
    ((∀ capacity : Int, 0 ≤ capacity →
      ∃ bus, NewPubSub capacity = .ok bus ∧ bus.subscribers = some [] ∧
        ∀ (h0 : Heap) (ops : List Op) (this2 : PubSub) (h2 : Heap) (outs : List Chan),
          h0.Valid → Op.close ∉ ops → run ops bus h0 = .ok (this2, h2, outs) →
          this2.subscribers ≠ none ∧ WellFormed this2 h2) ∧
    ∃ c this1 h1, PubSub.Subscribe { subscribers := some [0, 2] }
          { nchan := 2, trace := [Effect.close 1] } = (c, this1, h1) ∧
      c ≠ 0 ∧ c ∉ [0, 2] ∧ 2 < c ∧
      this1.subscribers = some ([0, 2] ++ [c]) ∧
      this1.live = PubSub.live { subscribers := some [0, 2] } ++ [c] ∧
      h1.trace = [Effect.close 1] ∧
      WellFormed this1 h1) :=
  ⟨rfl, by decide,
   Subscribe_on_open_bus { subscribers := some [0, 2] }
     { nchan := 2, trace := [Effect.close 1] } [0, 2] rfl (by decide)⟩

/-- C8 (failing input): `NewPubSub(0)`, `Subscribe()` returning the handle `1`,
`Unsubscribe(1)`, then `Unsubscribe(nil)`. The nil handle is not a live
subscriber of the bus, yet the last call does not complete as a no-op: the
slot cleared by the first `Unsubscribe` compares equal to the nil argument and
`close` is applied to the nil channel, which panics. -/
theorem Unsubscribe_nil_handle_panics :
    NewPubSub 0 = .ok { subscribers := some [] } ∧
    PubSub.Subscribe { subscribers := some [] } { nchan := 0, trace := [] }
      = (1, { subscribers := some [1] }, { nchan := 1, trace := [] }) ∧
    PubSub.Unsubscribe { subscribers := some [1] } 1 { nchan := 1, trace := [] }
      = .ok ({ subscribers := some [0] }, { nchan := 1, trace := [Effect.close 1] }) ∧
    (0 : Chan) ∉ PubSub.live { subscribers := some [0] } ∧
    PubSub.Unsubscribe { subscribers := some [0] } 0 { nchan := 1, trace := [Effect.close 1] }
      = .error Fault.closeOfNilChannel := by
  decide

/-! ### Rendering of service records -/

theorem takeWhile_key (l r : List Char) (hl : l.all (fun c => c != '=') = true) :
    (l ++ ('=' :: r)).takeWhile (fun c => c != '=') = l := by
  induction l with
  | nil => simp [List.takeWhile]
  | cons x xs ih =>
    simp only [List.all_cons, Bool.and_eq_true] at hl
    simp [List.takeWhile, hl.1, ih hl.2]

theorem itemKey_append (k v : GoString) (hk : k.data.all (fun c => c != '=') = true) :
    itemKey (k ++ "=" ++ v) = k := by
  unfold itemKey
  have h1 : (k ++ "=" ++ v).data = k.data ++ ('=' :: v.data) := by
    simp [String.data_append]
  rw [h1, takeWhile_key _ _ hk]

theorem itemKey_name (v : GoString) : itemKey ("name=\"" ++ v ++ "\"") = "name" := by
  have h : "name=\"" ++ v ++ "\"" = "name" ++ "=" ++ ("\"" ++ v ++ "\"") := by
    apply String.ext
    simp [String.data_append]
  rw [h]
  exact itemKey_append "name" _ (by decide)

theorem append_optional (c : Prop) [Decidable c] (p : List GoString) (x : GoString) :
    (if c then p ++ [x] else p) = p ++ (if c then [x] else []) := by
  split_ifs <;> simp

theorem items_eq (lib : Stringers) (s : RPCServiceRecord) :
    s.items lib
      = (if s.Name ≠ "" then ["name=\"" ++ s.Name ++ "\""] else [])
        ++ ((if s.Type_ ≠ "" then ["type=" ++ s.Type_] else [])
        ++ ((if s.Port > 0 then ["port=" ++ fmtUint s.Port] else [])
        ++ ((if s.Host ≠ "" then ["host=" ++ s.Host] else [])
        ++ ((if s.IP4.length > 0 then ["ip4=" ++ fmtIPs lib s.IP4] else [])
        ++ ((if s.IP6.length > 0 then ["ip6=" ++ fmtIPs lib s.IP6] else [])
        ++ ((if s.TTL > 0 then ["ttl=" ++ lib.duration s.TTL] else [])
        ++ (if s.Text.length > 0 then ["txt=" ++ fmtStrings s.Text] else []))))))) := by
  simp only [RPCServiceRecord.items, append_optional, List.nil_append]
  simp only [List.append_assoc]

theorem keys_eq (lib : Stringers) (s : RPCServiceRecord) :
    (s.items lib).map itemKey
      = (if s.Name ≠ "" then ["name"] else [])
        ++ ((if s.Type_ ≠ "" then ["type"] else [])
        ++ ((if s.Port > 0 then ["port"] else [])
        ++ ((if s.Host ≠ "" then ["host"] else [])
        ++ ((if s.IP4.length > 0 then ["ip4"] else [])
        ++ ((if s.IP6.length > 0 then ["ip6"] else [])
        ++ ((if s.TTL > 0 then ["ttl"] else [])
        ++ (if s.Text.length > 0 then ["txt"] else []))))))) := by
  have k1 := itemKey_name s.Name
  have k2 : itemKey ("type=" ++ s.Type_) = "type" := itemKey_append "type" _ (by decide)
  have k3 : itemKey ("port=" ++ fmtUint s.Port) = "port" := itemKey_append "port" _ (by decide)
  have k4 : itemKey ("host=" ++ s.Host) = "host" := itemKey_append "host" _ (by decide)
  have k5 : itemKey ("ip4=" ++ fmtIPs lib s.IP4) = "ip4" := itemKey_append "ip4" _ (by decide)
  have k6 : itemKey ("ip6=" ++ fmtIPs lib s.IP6) = "ip6" := itemKey_append "ip6" _ (by decide)
  have k7 : itemKey ("ttl=" ++ lib.duration s.TTL) = "ttl" := itemKey_append "ttl" _ (by decide)
  have k8 : itemKey ("txt=" ++ fmtStrings s.Text) = "txt" := itemKey_append "txt" _ (by decide)
  rw [items_eq]
  simp only [List.map_append, apply_ite (List.map itemKey), List.map_cons, List.map_nil,
    k1, k2, k3, k4, k5, k6, k7, k8]

theorem optional_sublist (c : Prop) [Decidable c] (x : GoString) :
    (if c then [x] else []).Sublist [x] := by
  split_ifs
  · exact List.Sublist.refl _
  · exact List.nil_sublist _

theorem mem_optional (c : Prop) [Decidable c] (x y : GoString) :
    y ∈ (if c then [x] else []) ↔ c ∧ y = x := by
  split_ifs with hc <;> simp [hc]

/-- C9 (counterexample): a record whose only populated fields are the name and
a negative TTL of one nanosecond. The TTL is not zero, yet no `ttl=` item is
rendered: the text is `<gopi.RPCServiceRecord>{ name="printer" }`. -/
theorem String_omits_negative_TTL :
    (RPCServiceRecord.mk "printer" "" 0 [] "" [] [] (-1)).TTL ≠ 0 ∧
    (∀ lib : Stringers,
      "ttl" ∉ ((RPCServiceRecord.mk "printer" "" 0 [] "" [] [] (-1)).items lib).map itemKey ∧
      (RPCServiceRecord.mk "printer" "" 0 [] "" [] [] (-1)).String lib
        = "<gopi.RPCServiceRecord>\x7b name=\"printer\" \x7d") :=
  ⟨by decide, fun lib => ⟨by rw [keys_eq]; decide, by
    have hi : (RPCServiceRecord.mk "printer" "" 0 [] "" [] [] (-1)).items lib
        = ["name=\"printer\""] := by
      simp [items_eq]
    rw [RPCServiceRecord.String, hi]
    decide⟩⟩

/-- C9 (amended): `String()` is the join of the rendered items inside the
braces, and it renders the item of a field exactly when the field is populated:
`name`, `type`, `host` when the string is not empty, `port` when the port is not
zero, `ip4`, `ip6`, `txt` when the list is not empty, and `ttl` when the TTL is
strictly positive (a zero or negative TTL renders no item). -/
theorem String_renders_populated_fields_only (lib : Stringers) (s : RPCServiceRecord) :
    s.String lib
      = "<gopi.RPCServiceRecord>\x7b " ++ " ".intercalate (s.items lib) ++ " \x7d" ∧
    ("name" ∈ (s.items lib).map itemKey ↔ s.Name ≠ "") ∧
    ("type" ∈ (s.items lib).map itemKey ↔ s.Type_ ≠ "") ∧
    ("port" ∈ (s.items lib).map itemKey ↔ s.Port ≠ 0) ∧
    ("host" ∈ (s.items lib).map itemKey ↔ s.Host ≠ "") ∧
    ("ip4" ∈ (s.items lib).map itemKey ↔ s.IP4 ≠ []) ∧
    ("ip6" ∈ (s.items lib).map itemKey ↔ s.IP6 ≠ []) ∧
    ("ttl" ∈ (s.items lib).map itemKey ↔ 0 < s.TTL) ∧
    ("txt" ∈ (s.items lib).map itemKey ↔ s.Text ≠ []) := by
  rw [keys_eq]
  refine ⟨rfl, ?_, ?_, ?_, ?_, ?_, ?_, ?_, ?_⟩ <;>
    simp [mem_optional, Nat.pos_iff_ne_zero, List.length_pos]

/-- C10: the items `String()` renders form a subsequence of the eight items
`name="…"`, `type=…`, `port=…`, `host=…`, `ip4=…`, `ip6=…`, `ttl=…`, `txt=…`
taken in that order (the name value between double quotes, the other values as
`%v` prints them); their keys form a subsequence of `name, type, port, host,
ip4, ip6, ttl, txt` without repetition; and the result is these items joined by
single spaces between `<gopi.RPCServiceRecord>{ ` and ` }`. -/
theorem String_renders_items_in_fixed_order (lib : Stringers) (s : RPCServiceRecord) :
    (s.items lib).Sublist (s.allItems lib) ∧
    ((s.items lib).map itemKey).Sublist
      ["name", "type", "port", "host", "ip4", "ip6", "ttl", "txt"] ∧
    ((s.items lib).map itemKey).Nodup ∧
    s.String lib
      = "<gopi.RPCServiceRecord>\x7b " ++ " ".intercalate (s.items lib) ++ " \x7d" := by
  have hkeys : ((s.items lib).map itemKey).Sublist
      ["name", "type", "port", "host", "ip4", "ip6", "ttl", "txt"] := by
    rw [keys_eq]
    exact (optional_sublist _ "name").append ((optional_sublist _ "type").append
      ((optional_sublist _ "port").append ((optional_sublist _ "host").append
      ((optional_sublist _ "ip4").append ((optional_sublist _ "ip6").append
      ((optional_sublist _ "ttl").append (optional_sublist _ "txt")))))))
  refine ⟨?_, hkeys, hkeys.nodup (by decide), rfl⟩
  rw [items_eq]
  exact (optional_sublist _ _).append ((optional_sublist _ _).append
    ((optional_sublist _ _).append ((optional_sublist _ _).append
    ((optional_sublist _ _).append ((optional_sublist _ _).append
    ((optional_sublist _ _).append (optional_sublist _ _)))))))

/-! ### Event types -/

/-- C11: `RPCEventType.String()` maps the values 0, 1, 2, 3 (the constants
`RPC_EVENT_NONE`, `RPC_EVENT_SERVER_STARTED`, `RPC_EVENT_SERVER_STOPPED`,
`RPC_EVENT_SERVICE_RECORD`) to the four strings of the same names, which are
pairwise distinct, and every other value to the one marker
`[?? Invalid RPCEventType value]`, which is not empty and differs from the four
names. -/
theorem RPCEventType_String_names (t : RPCEventType) (ht : 3 < t) :
    RPC_EVENT_NONE = 0 ∧ RPC_EVENT_SERVER_STARTED = 1 ∧
    RPC_EVENT_SERVER_STOPPED = 2 ∧ RPC_EVENT_SERVICE_RECORD = 3 ∧
    RPCEventType.String 0 = "RPC_EVENT_NONE" ∧
    RPCEventType.String 1 = "RPC_EVENT_SERVER_STARTED" ∧
    RPCEventType.String 2 = "RPC_EVENT_SERVER_STOPPED" ∧
    RPCEventType.String 3 = "RPC_EVENT_SERVICE_RECORD" ∧
    ["RPC_EVENT_NONE", "RPC_EVENT_SERVER_STARTED", "RPC_EVENT_SERVER_STOPPED",
      "RPC_EVENT_SERVICE_RECORD"].Nodup ∧
    RPCEventType.String t = "[?? Invalid RPCEventType value]" ∧
    "[?? Invalid RPCEventType value]" ≠ "" ∧
    "[?? Invalid RPCEventType value]" ∉
      ["RPC_EVENT_NONE", "RPC_EVENT_SERVER_STARTED", "RPC_EVENT_SERVER_STOPPED",
        "RPC_EVENT_SERVICE_RECORD"] := by
  have h0 : ¬ t = RPC_EVENT_NONE := by
    intro e
    rw [e] at ht
    exact absurd ht (by decide)
  have h1 : ¬ t = RPC_EVENT_SERVER_STARTED := by
    intro e
    rw [e] at ht
    exact absurd ht (by decide)
  have h2 : ¬ t = RPC_EVENT_SERVER_STOPPED := by
    intro e
    rw [e] at ht
    exact absurd ht (by decide)
  have h3 : ¬ t = RPC_EVENT_SERVICE_RECORD := by
    intro e
    rw [e] at ht
    exact absurd ht (by decide)
  refine ⟨rfl, rfl, rfl, rfl, by decide, by decide, by decide, by decide, by decide, ?_,
    by decide, by decide⟩
  simp only [RPCEventType.String, h0, h1, h2, h3, if_false]

/-- Witness for C11 at the first value past the four constants. -/
theorem RPCEventType_String_names_witness :
    (3 : Nat) < 4 ∧
    (RPC_EVENT_NONE = 0 ∧ RPC_EVENT_SERVER_STARTED = 1 ∧
    RPC_EVENT_SERVER_STOPPED = 2 ∧ RPC_EVENT_SERVICE_RECORD = 3 ∧
    RPCEventType.String 0 = "RPC_EVENT_NONE" ∧
    RPCEventType.String 1 = "RPC_EVENT_SERVER_STARTED" ∧
    RPCEventType.String 2 = "RPC_EVENT_SERVER_STOPPED" ∧
    RPCEventType.String 3 = "RPC_EVENT_SERVICE_RECORD" ∧
    ["RPC_EVENT_NONE", "RPC_EVENT_SERVER_STARTED", "RPC_EVENT_SERVER_STOPPED",
      "RPC_EVENT_SERVICE_RECORD"].Nodup ∧
    RPCEventType.String 4 = "[?? Invalid RPCEventType value]" ∧
    "[?? Invalid RPCEventType value]" ≠ "" ∧
    "[?? Invalid RPCEventType value]" ∉
      ["RPC_EVENT_NONE", "RPC_EVENT_SERVER_STARTED", "RPC_EVENT_SERVER_STOPPED",
        "RPC_EVENT_SERVICE_RECORD"]) :=
  ⟨by decide, RPCEventType_String_names 4 (by decide)⟩

/-! ### Transport flags -/

/-- C12: `RPC_FLAG_NONE` is 0; `RPC_FLAG_INET_UDP`, `RPC_FLAG_INET_V4` and
`RPC_FLAG_INET_V6` are the powers of two with exponent 1, 2 and 3, so each is
non-zero with exactly one bit set (bit 1, 2, 3 respectively); the bitwise AND of
any two of them is 0; and for every subset of the three OR-ed together, the
test `flags & F != 0` holds exactly for the flags `F` of the subset. -/
theorem RPCFlag_composable_bit_set (udp v4 v6 : Bool) :
    RPC_FLAG_NONE = 0 ∧
    RPC_FLAG_INET_UDP = 2 ^ 1 ∧ RPC_FLAG_INET_V4 = 2 ^ 2 ∧ RPC_FLAG_INET_V6 = 2 ^ 3 ∧
    RPC_FLAG_INET_UDP ≠ 0 ∧ RPC_FLAG_INET_V4 ≠ 0 ∧ RPC_FLAG_INET_V6 ≠ 0 ∧
    (∀ i, RPC_FLAG_INET_UDP.testBit i = decide (i = 1)) ∧
    (∀ i, RPC_FLAG_INET_V4.testBit i = decide (i = 2)) ∧
    (∀ i, RPC_FLAG_INET_V6.testBit i = decide (i = 3)) ∧
    RPC_FLAG_INET_UDP &&& RPC_FLAG_INET_V4 = 0 ∧
    RPC_FLAG_INET_UDP &&& RPC_FLAG_INET_V6 = 0 ∧
    RPC_FLAG_INET_V4 &&& RPC_FLAG_INET_V6 = 0 ∧
    (flagSet udp v4 v6 &&& RPC_FLAG_INET_UDP ≠ 0 ↔ udp = true) ∧
    (flagSet udp v4 v6 &&& RPC_FLAG_INET_V4 ≠ 0 ↔ v4 = true) ∧
    (flagSet udp v4 v6 &&& RPC_FLAG_INET_V6 ≠ 0 ↔ v6 = true) := by
  have hu : RPC_FLAG_INET_UDP = 2 ^ 1 := by decide
  have h4 : RPC_FLAG_INET_V4 = 2 ^ 2 := by decide
  have h6 : RPC_FLAG_INET_V6 = 2 ^ 3 := by decide
  refine ⟨rfl, hu, h4, h6, by decide, by decide, by decide, ?_, ?_, ?_, by decide, by decide,
    by decide, ?_, ?_, ?_⟩
  · intro i
    rw [hu, Nat.testBit_two_pow]
    exact decide_eq_decide.mpr eq_comm
  · intro i
    rw [h4, Nat.testBit_two_pow]
    exact decide_eq_decide.mpr eq_comm
  · intro i
    rw [h6, Nat.testBit_two_pow]
    exact decide_eq_decide.mpr eq_comm
  · cases udp <;> cases v4 <;> cases v6 <;> decide
  · cases udp <;> cases v4 <;> cases v6 <;> decide
  · cases udp <;> cases v4 <;> cases v6 <;> decide

/-! ### What the name check accepts -/

theorem seq_empty_matchesHere (b : Regex) (cs : List Char) :
    (Regex.seq .empty b).matchesHere cs = false := by
  induction cs with
  | nil => simp [Regex.matchesHere, Regex.nullable]
  | cons c cs ih => simpa [Regex.matchesHere, Regex.deriv, Regex.nullable] using ih

theorem first_class_eq_range (c : Char) :
    inClass [('A', 'z'), ('a', 'z')] c = inRangeAz c := by
  have hA : ('A' : Char).toNat = 65 := by decide
  have ha : ('a' : Char).toNat = 97 := by decide
  have hz : ('z' : Char).toNat = 122 := by decide
  rw [Bool.eq_iff_iff]
  simp only [inClass, inRangeAz, List.any_cons, List.any_nil, Bool.or_false, Bool.or_eq_true,
    Bool.and_eq_true, decide_eq_true_eq, hA, ha, hz]
  constructor
  · rintro (⟨h1, h2⟩ | ⟨h1, h2⟩)
    · exact ⟨h1, h2⟩
    · exact ⟨by omega, h2⟩
  · rintro ⟨h1, h2⟩
    exact Or.inl ⟨h1, h2⟩

theorem reService_search_eq_any (l : List Char) :
    reService.search l = l.any inRangeAz := by
  induction l with
  | nil => simp [Regex.search, Regex.matchesHere, reService, Regex.nullable]
  | cons c cs ih =>
    by_cases hc : inRangeAz c = true
    · have h1 : inClass [('A', 'z'), ('a', 'z')] c = true := by
        rw [first_class_eq_range]; exact hc
      rw [reService_search_of_head c cs h1]
      simp [hc]
    · have h1 : inClass [('A', 'z'), ('a', 'z')] c = false := by
        rw [first_class_eq_range]; simpa using hc
      have hd : reService.deriv c
          = .seq .empty (.star (.cls [('A', 'Z'), ('a', 'z'), ('0', '9'), ('-', '-')])) := by
        simp [reService, Regex.deriv, Regex.nullable, h1]
      have hn : reService.nullable = false := by simp [reService, Regex.nullable]
      have hf : inRangeAz c = false := by simpa using hc
      simp [Regex.search, Regex.matchesHere, hd, hn, seq_empty_matchesHere, ih, hf]

/-- C13: for every string `s` and every flag value, `RPCServiceType(s, flags)`
succeeds exactly when `s` holds at least one character in the range `A`..`z`
(U+0041 to U+007A), and then returns `"_" + s + "._udp"` or `"_" + s + "._tcp"`
with the whole of `s` inside, according to bit 1 of the flags; otherwise it
returns the empty string with `ErrBadParameter`. The six characters between
`Z` and `a` (U+005B to U+0060) are in the range, so a name made of one of them
alone is accepted, and so is a name with a single letter after characters the
pattern does not match. -/
theorem RPCServiceType_accepts_iff_range_A_z (s : GoString) (flags : RPCFlag) :
    RPCServiceType s flags
      = (if s.data.any inRangeAz then
          ("_" ++ s ++ (if flags.testBit 1 then "._udp" else "._tcp"), none)
         else ("", some GopiError.ErrBadParameter)) ∧
    ((RPCServiceType s flags).2 = none ↔ ∃ c ∈ s.data, 0x41 ≤ c.toNat ∧ c.toNat ≤ 0x7A) ∧
    ([0x5B, 0x5C, 0x5D, 0x5E, 0x5F, 0x60].all
      (fun n => decide ((RPCServiceType (String.singleton (Char.ofNat n)) flags).2 = none))
      = true) ∧
    RPCServiceType "9 .a" RPC_FLAG_NONE = ("_9 .a._tcp", none) := by
  have hm : reService.MatchString s = s.data.any inRangeAz := reService_search_eq_any s.data
  have hmain : RPCServiceType s flags
      = (if s.data.any inRangeAz then
          ("_" ++ s ++ (if flags.testBit 1 then "._udp" else "._tcp"), none)
         else ("", some GopiError.ErrBadParameter)) := by
    unfold RPCServiceType
    rw [hm]
    by_cases ha : s.data.any inRangeAz = true
    · by_cases hb : flags.testBit 1 = true
      · have := (udp_bit_test flags).mpr hb
        simp [ha, hb, this]
      · have : ¬ (flags &&& RPC_FLAG_INET_UDP ≠ 0) := fun hc => hb ((udp_bit_test flags).mp hc)
        simp [ha, hb, this]
    · simp [ha]
  have hsix : ∀ n ∈ [0x5B, 0x5C, 0x5D, 0x5E, 0x5F, 0x60],
      (RPCServiceType (String.singleton (Char.ofNat n)) flags).2 = none := by
    intro n hn
    have hmn : reService.MatchString (String.singleton (Char.ofNat n)) = true := by
      simp only [List.mem_cons, List.mem_singleton, List.not_mem_nil, or_false] at hn
      rcases hn with h | h | h | h | h | h <;> subst h <;> decide
    unfold RPCServiceType
    rw [hmn]
    by_cases hb : flags &&& RPC_FLAG_INET_UDP ≠ 0 <;> simp [hb]
  refine ⟨hmain, ?_, ?_, by decide⟩
  · rw [hmain]
    by_cases ha : s.data.any inRangeAz = true
    · simp only [ha, if_true, true_iff]
      obtain ⟨c, hc, hr⟩ := List.any_eq_true.mp ha
      simp only [inRangeAz, Bool.and_eq_true, decide_eq_true_eq] at hr
      exact ⟨c, hc, hr⟩
    · simp only [ha, Bool.false_eq_true, if_false, reduceCtorEq, false_iff]
      rintro ⟨c, hc, hr⟩
      exact ha (List.any_eq_true.mpr ⟨c, hc, by simpa [inRangeAz] using hr⟩)
  · rw [List.all_eq_true]
    intro n hn
    exact decide_eq_true (hsix n hn)

/-! ### Channel safety of the bus -/

theorem step_ok_of_WellFormed (op : Op) (this : PubSub) (h : Heap) (hwf : WellFormed this h)
    (hnil : op = Op.unsubscribe 0 → this.subscribers = none) :
    ∃ r, step op this h = .ok r := by
  cases op with
  | subscribe =>
    cases hs : this.subscribers <;> simp [step, PubSub.Subscribe, hs, Heap.make]
  | unsubscribe s =>
    cases hs : this.subscribers with
    | none => simp [step, PubSub.Unsubscribe, hs]
    | some l =>
      have hthis : this = { subscribers := some l } := by cases this; simpa using hs
      subst hthis
      have hs0 : s ≠ 0 := by
        intro e
        subst e
        have := hnil rfl
        simp at this
      by_cases hmem : s ∈ l
      · have hlv : s ∈ PubSub.live { subscribers := some l } :=
          (mem_live_iff _ s).mpr ⟨by simpa using hmem, hs0⟩
        have hn : (l.filter (fun x => x ≠ 0)).Nodup := by
          simpa [PubSub.live] using hwf.1
        simp [step, PubSub.Unsubscribe,
          unsubscribeLoop_present s l h hs0 (hwf.2.1 s hlv).2 hmem hn]
      · simp [step, PubSub.Unsubscribe, unsubscribeLoop_absent s l h hmem]
  | emit evt =>
    simp [step, Emit_ok this evt h (WellFormed_open this h hwf)]
  | close =>
    have hopen : ∀ c ∈ this.subscribers.getD [], c ≠ 0 → h.isClosed c = false :=
      fun c hc hc0 => (hwf.2.1 c ((mem_live_iff this c).mpr ⟨hc, hc0⟩)).2
    simp [step, PubSub.Close, closeLoop_ok (this.subscribers.getD []) h hwf.1 hopen]

theorem step_keeps_closed (op : Op) (this this1 : PubSub) (h h1 : Heap) (out : Option Chan)
    (hs : this.subscribers = none) (hr : step op this h = .ok (this1, h1, out)) :
    this1.subscribers = none := by
  have hthis : this = { subscribers := none } := by cases this; simpa using hs
  subst hthis
  cases op with
  | subscribe =>
    simp only [step, PubSub.Subscribe, Except.ok.injEq, Prod.mk.injEq] at hr
    rw [← hr.1]
  | unsubscribe s =>
    simp only [step, PubSub.Unsubscribe, Except.ok.injEq, Prod.mk.injEq] at hr
    rw [← hr.1]
  | emit evt =>
    simp only [step, PubSub.Emit, Option.getD_none, emitLoop, Except.ok.injEq,
      Prod.mk.injEq] at hr
    rw [← hr.1]
  | close =>
    simp only [step, PubSub.Close, Option.getD_none, closeLoop, Except.ok.injEq,
      Prod.mk.injEq] at hr
    rw [← hr.1]

theorem step_nil_handle_only_when_closed (op : Op) (this this1 : PubSub) (h h1 : Heap)
    (out : Option Chan) (hr : step op this h = .ok (this1, h1, out))
    (h0 : (0 : Chan) ∈ out.toList) : this.subscribers = none := by
  cases hs : this.subscribers with
  | none => rfl
  | some l =>
    exfalso
    cases op with
    | subscribe =>
      simp only [step, PubSub.Subscribe, hs, Heap.make, Except.ok.injEq, Prod.mk.injEq] at hr
      obtain ⟨-, -, e⟩ := hr
      subst e
      simp at h0
    | unsubscribe s =>
      simp only [step, PubSub.Unsubscribe, hs] at hr
      cases hrec : unsubscribeLoop s l h with
      | error f => simp [hrec] at hr
      | ok r =>
        obtain ⟨r1, r2⟩ := r
        simp only [hrec, Except.ok.injEq, Prod.mk.injEq] at hr
        obtain ⟨-, -, e⟩ := hr
        subst e
        simp at h0
    | emit evt =>
      simp only [step] at hr
      cases hrec : this.Emit evt h with
      | error f => simp [hrec] at hr
      | ok r =>
        simp only [hrec, Except.ok.injEq, Prod.mk.injEq] at hr
        obtain ⟨-, -, e⟩ := hr
        subst e
        simp at h0
    | close =>
      simp only [step] at hr
      cases hrec : this.Close h with
      | error f => simp [hrec] at hr
      | ok r =>
        obtain ⟨r1, r2⟩ := r
        simp only [hrec, Except.ok.injEq, Prod.mk.injEq] at hr
        obtain ⟨-, -, e⟩ := hr
        subst e
        simp at h0

theorem admissible_run_ok (ops : List Op) (this : PubSub) (h : Heap) (issued : List Chan)
    (hwf : WellFormed this h) (hnil : (0 : Chan) ∈ issued → this.subscribers = none)
    (hadm : admissible ops this h issued = true) :
    ∃ this2 h2 outs, run ops this h = .ok (this2, h2, outs) ∧ WellFormed this2 h2 := by
  induction ops generalizing this h issued with
  | nil => exact ⟨this, h, [], rfl, hwf⟩
  | cons op rest ih =>
    simp only [admissible, Bool.and_eq_true] at hadm
    obtain ⟨hop, hrest⟩ := hadm
    have hguard : op = Op.unsubscribe 0 → this.subscribers = none := by
      intro e
      subst e
      exact hnil (by simpa using hop)
    obtain ⟨r, hst⟩ := step_ok_of_WellFormed op this h hwf hguard
    obtain ⟨this1, h1, out⟩ := r
    simp only [hst] at hrest
    have hwf1 := step_preserves_WellFormed op this this1 h h1 out hwf hst
    have hnil1 : (0 : Chan) ∈ issued ++ out.toList → this1.subscribers = none := by
      intro hm
      rcases List.mem_append.mp hm with hm | hm
      · exact step_keeps_closed op this this1 h h1 out (hnil hm) hst
      · exact step_keeps_closed op this this1 h h1 out
          (step_nil_handle_only_when_closed op this this1 h h1 out hst hm) hst
    obtain ⟨this2, h2, outs, hrun, hwf2⟩ := ih this1 h1 (issued ++ out.toList) hwf1 hnil1 hrest
    exact ⟨this2, h2, out.toList ++ outs, by simp [run, hst, hrun], hwf2⟩

theorem admissible_take (ops : List Op) (k : Nat) (this : PubSub) (h : Heap)
    (issued : List Chan) (hadm : admissible ops this h issued = true) :
    admissible (ops.take k) this h issued = true := by
  induction ops generalizing k this h issued with
  | nil => simpa using hadm
  | cons op rest ih =>
    cases k with
    | zero => simp [admissible]
    | succ k =>
      simp only [admissible, Bool.and_eq_true] at hadm
      simp only [List.take_succ_cons, admissible, Bool.and_eq_true]
      refine ⟨hadm.1, ?_⟩
      cases hst : step op this h with
      | error f => rfl
      | ok r =>
        obtain ⟨this1, h1, out⟩ := r
        have := hadm.2
        simp only [hst] at this
        exact ih k this1 h1 (issued ++ out.toList) this

/-- C14: starting from `NewPubSub(capacity)` with `capacity >= 0` on a valid
heap, let a finite sequence of `Subscribe`, `Unsubscribe`, `Emit` and `Close`
calls be such that every handle passed to `Unsubscribe` was returned by an
earlier `Subscribe` of the sequence (the nil handle returned after `Close`
included). Then every initial stretch of the sequence runs to completion, so no
call closes the nil channel, closes a channel twice or sends on a closed
channel; and after it every non-nil element of the subscriber slice is a
created channel that is still open, and no channel occurs twice among them. -/
theorem PubSub_channel_safety (capacity : Int) (h0 : Heap) (ops : List Op)
    (hcap : 0 ≤ capacity) (hv : h0.Valid)
    (hadm : admissible ops { subscribers := some [] } h0 [] = true) :
    NewPubSub capacity = .ok { subscribers := some [] } ∧
    ∀ k, ∃ this2 h2 outs,
      run (ops.take k) { subscribers := some [] } h0 = .ok (this2, h2, outs) ∧
      (∀ c ∈ this2.subscribers.getD [], c ≠ 0 → c ≤ h2.nchan ∧ h2.isClosed c = false) ∧
      ((this2.subscribers.getD []).filter (fun c => c ≠ 0)).Nodup ∧
      WellFormed this2 h2 := by
  refine ⟨by simp [NewPubSub, not_lt.mpr hcap], ?_⟩
  intro k
  have hwf0 : WellFormed { subscribers := some [] } h0 :=
    ⟨by simp [PubSub.live], by simp [PubSub.live], hv⟩
  obtain ⟨this2, h2, outs, hrun, hwf2⟩ :=
    admissible_run_ok (ops.take k) _ h0 [] hwf0 (by simp)
      (admissible_take ops k _ h0 [] hadm)
  refine ⟨this2, h2, outs, hrun, ?_, hwf2.1, hwf2⟩
  intro c hc hc0
  exact hwf2.2.1 c ((mem_live_iff this2 c).mpr ⟨hc, hc0⟩)

/-- Witness for C14: two subscribers, one unsubscribed twice, a `Close`, and an
`Unsubscribe` of the nil handle that the `Subscribe` after `Close` returned. -/
theorem PubSub_channel_safety_witness :
    (0 : Int) ≤ 0 ∧ Heap.Valid { nchan := 0, trace := [] } ∧
    admissible [Op.subscribe, Op.subscribe, Op.emit 7, Op.unsubscribe 1, Op.unsubscribe 1,
        Op.emit 8, Op.close, Op.subscribe, Op.unsubscribe 0, Op.emit 9]
      { subscribers := some [] } { nchan := 0, trace := [] } [] = true ∧
    (NewPubSub 0 = .ok { subscribers := some [] } ∧
    ∀ k, ∃ this2 h2 outs,
      run ([Op.subscribe, Op.subscribe, Op.emit 7, Op.unsubscribe 1, Op.unsubscribe 1,
          Op.emit 8, Op.close, Op.subscribe, Op.unsubscribe 0, Op.emit 9].take k)
        { subscribers := some [] } { nchan := 0, trace := [] } = .ok (this2, h2, outs) ∧
      (∀ c ∈ this2.subscribers.getD [], c ≠ 0 → c ≤ h2.nchan ∧ h2.isClosed c = false) ∧
      ((this2.subscribers.getD []).filter (fun c => c ≠ 0)).Nodup ∧
      WellFormed this2 h2) :=
  ⟨by decide, by decide, by decide,
   PubSub_channel_safety 0 { nchan := 0, trace := [] }
     [Op.subscribe, Op.subscribe, Op.emit 7, Op.unsubscribe 1, Op.unsubscribe 1,
       Op.emit 8, Op.close, Op.subscribe, Op.unsubscribe 0, Op.emit 9]
     (by decide) (by decide) (by decide)⟩

/-! ### Physical pins -/

theorem logicalpinmap_known (q : Nat) (h1 : 1 ≤ q) (h40 : q ≤ 40) :
    gpio.logicalpinmap q ≠ gpio.GPIO_PIN_UNKNOWN := by
  interval_cases q <;> decide

theorem logicalpinmap_absent (q : Nat) (h40 : 40 < q) :
    gpio.logicalpinmap q = gpio.GPIO_PIN_UNKNOWN := by
  have hkeys : ∀ e ∈ gpio.logicalpinmapEntries, e.1 ≤ 40 := by decide
  have hnone : gpio.logicalpinmapEntries.lookup q = none := by
    rw [List.lookup_eq_none_iff]
    intro e he
    have hle : e.1 ≤ 40 := hkeys e he
    have hne : q ≠ e.1 := fun heq => absurd (heq ▸ hle) (Nat.not_le.mpr h40)
    simpa using hne
  simp [gpio.logicalpinmap, hnone, gpio.GPIO_PIN_UNKNOWN]

theorem getPhysicalPin_eq (this : gpio.Pins) (p : Nat) :
    this.getPhysicalPin p
      = (if p < 1 ∨ min this.NumberOfPins 40 < p then
          (none, some gpio.RpiError.ErrorUnknownPin)
         else
          (some { Name := gpio.logicalpinnamemap (gpio.logicalpinmap p),
                  LogicalPin := gpio.logicalpinmap p, PhysicalPin := [p] }, none)) := by
  unfold gpio.Pins.getPhysicalPin
  by_cases hr : p < 1 ∨ p > this.NumberOfPins
  · have hc : p < 1 ∨ min this.NumberOfPins 40 < p := by
      rcases hr with h | h
      · exact Or.inl h
      · exact Or.inr (lt_of_le_of_lt (Nat.min_le_left _ _) h)
    simp only [hr, hc, if_true]
  · have h1 : 1 ≤ p := by
      by_contra hlt
      exact hr (Or.inl (Nat.lt_of_not_le hlt))
    have hn : p ≤ this.NumberOfPins := by
      by_contra hlt
      exact hr (Or.inr (Nat.lt_of_not_le hlt))
    by_cases h40 : p ≤ 40
    · have hk := logicalpinmap_known p h1 h40
      have hc : ¬ (p < 1 ∨ min this.NumberOfPins 40 < p) := by
        rintro (h | h)
        · exact absurd h1 (Nat.not_le.mpr h)
        · exact absurd (Nat.le_min.mpr ⟨hn, h40⟩) (Nat.not_le.mpr h)
      simp only [hr, hc, hk, if_false]
    · have ha := logicalpinmap_absent p (Nat.lt_of_not_le h40)
      have hc : p < 1 ∨ min this.NumberOfPins 40 < p :=
        Or.inr (lt_of_le_of_lt (Nat.min_le_right _ _) (Nat.lt_of_not_le h40))
      simp only [hr, hc, ha, if_true, if_false]

/-- C15: for every `Pins` value with `NumberOfPins = n` and every physical pin
number `p`, `getPhysicalPin(p)` returns a nil pin with `ErrorUnknownPin` exactly
when `p < 1` or `p > min(n, 40)`; otherwise it returns a nil error with the pin
whose `LogicalPin` is `logicalpinmap[p]`, whose `Name` is `logicalpinnamemap` of
that logical pin and whose `PhysicalPin` list is `[p]`. A returned pin is never
`GPIO_PIN_UNKNOWN`, every position from 1 to 40 being mapped to another logical
pin, and `GetPin` called with a `PhysicalPin` returns the same result. -/
theorem getPhysicalPin_unknown_iff_out_of_header (this : gpio.Pins) (p : Nat) :
    this.getPhysicalPin p
      = (if p < 1 ∨ min this.NumberOfPins 40 < p then
          (none, some gpio.RpiError.ErrorUnknownPin)
         else
          (some { Name := gpio.logicalpinnamemap (gpio.logicalpinmap p),
                  LogicalPin := gpio.logicalpinmap p, PhysicalPin := [p] }, none)) ∧
    (this.getPhysicalPin p = (none, some gpio.RpiError.ErrorUnknownPin)
      ↔ p < 1 ∨ min this.NumberOfPins 40 < p) ∧
    (∀ pin, (this.getPhysicalPin p).1 = some pin →
      pin.LogicalPin ≠ gpio.GPIO_PIN_UNKNOWN ∧ (this.getPhysicalPin p).2 = none) ∧
    ((List.range' 1 40).all (fun q => decide (gpio.logicalpinmap q ≠ gpio.GPIO_PIN_UNKNOWN))
      = true) ∧
    this.GetPin (gpio.PinArg.physical p) = this.getPhysicalPin p := by
  have heq := getPhysicalPin_eq this p
  refine ⟨heq, ?_, ?_, by decide, rfl⟩
  · rw [heq]
    by_cases hc : p < 1 ∨ min this.NumberOfPins 40 < p
    · simp only [hc, if_true]
    · simp only [hc, if_false, iff_false]
      intro hcontra
      simp at hcontra
  · intro pin hpin
    rw [heq] at hpin ⊢
    by_cases hc : p < 1 ∨ min this.NumberOfPins 40 < p
    · rw [if_pos hc] at hpin
      simp at hpin
    · rw [if_neg hc] at hpin ⊢
      simp only [Option.some.injEq] at hpin
      have h1 : 1 ≤ p := by
        by_contra hlt
        exact hc (Or.inl (Nat.lt_of_not_le hlt))
      have h40 : p ≤ 40 := by
        by_contra hlt
        exact hc (Or.inr (lt_of_le_of_lt (Nat.min_le_right _ _) (Nat.lt_of_not_le hlt)))
      refine ⟨?_, rfl⟩
      rw [← hpin]
      exact logicalpinmap_known p h1 h40
